import Mathlib

/-!
Verification development for the tw-eval-leaderboard data normalization and
aggregation pipeline (the pure transformation functions of
`src/features/transform.ts` as re-exported through `Home.tsx`, plus the
aggregation logic embedded in `BenchmarkRankingTable` and
`CategoryDashboard`).

Conventions of the shallow embedding:
* JSON documents are modelled by the inductive type `Json`; JavaScript
  numbers are modelled by `ℚ` (the claims under study never involve NaN,
  Infinity or rounding, and scores are copied verbatim).
* JavaScript objects are modelled as association lists with distinct keys
  in insertion order (the shape produced by `JSON.parse`); property lookup
  takes the first matching key.
* JavaScript property access on `null` throws a TypeError; code paths that
  can perform such an access are modelled in `Except String`.
* JavaScript `Map` and plain-object insertion-order semantics are modelled
  by association lists where an update keeps the position of an existing
  key and an insert appends at the end.
-/

/-- Model of a parsed JSON value (`unknown` on the TypeScript side). -/
inductive Json where
  | null : Json
  | bool : Bool → Json
  | num : ℚ → Json
  | str : String → Json
  | arr : List Json → Json
  | obj : List (String × Json) → Json

/-- JavaScript truthiness test (`!x`), for the values representable as JSON.
NaN does not occur in the `ℚ` model. Arrays and objects are always truthy. -/
def Json.isFalsy : Json → Bool
  | .null => true
  | .bool b => !b
  | .num q => q == 0
  | .str s => s == ""
  | .arr _ => false
  | .obj _ => false

/-- JavaScript property access `v[k]` on a non-null value: returns the field
of an object, `undefined` (= `none`) otherwise.  The modelled code only reads
non-index, non-`length` keys, so arrays and strings always give `undefined`
here. -/
def Json.getProp : Json → String → Option Json
  | .obj fields, k => (fields.find? (fun f => f.1 == k)).map (·.2)
  | _, _ => none

/-- JavaScript property access `v.k` where `v` may be `null`: accessing a
property of `null` throws a TypeError. -/
def Json.getPropOrThrow (v : Json) (k : String) : Except String (Option Json) :=
  match v with
  | .null => .error "TypeError"
  | j => .ok (j.getProp k)

/-- `Object.entries(v)`: fields of an object, index/element pairs of an
array, index/character pairs of a string, and `[]` for the primitives. -/
def Json.jsEntries : Json → List (String × Json)
  | .obj fields => fields
  | .arr xs => xs.enum.map (fun p => (toString p.1, p.2))
  | .str s => s.toList.enum.map (fun p => (toString p.1, .str (String.mk [p.2])))
  | _ => []

/-! ### Character-list string primitives

The JavaScript string operations used by the pipeline (`split`, `pop`,
trailing-character stripping, `includes`, suffix-anchored `replace`) are
modelled on `List Char`; `String`-level wrappers convert via `toList`. -/

/-- `s.replace(/c+$/, '')`: drop every trailing occurrence of `c`. -/
def stripTrailingChars (c : Char) (s : List Char) : List Char :=
  (s.reverse.dropWhile (fun a => a == c)).reverse

/-- JavaScript `String.prototype.split` with a one-character separator:
left-to-right scan, always at least one segment. -/
def splitOnCharC (c : Char) : List Char → List (List Char)
  | [] => [[]]
  | a :: rest =>
    if a == c then [] :: splitOnCharC c rest
    else
      match splitOnCharC c rest with
      | [] => [[]]
      | h :: t => (a :: h) :: t

/-- JavaScript `String.prototype.split` with a two-character separator
(used for `"__"`): left-to-right scan, non-overlapping matches, always at
least one segment. -/
def splitOnPairC (c₁ c₂ : Char) : List Char → List (List Char)
  | [] => [[]]
  | [a] => [[a]]
  | a :: b :: rest =>
    if a == c₁ && b == c₂ then [] :: splitOnPairC c₁ c₂ rest
    else
      match splitOnPairC c₁ c₂ (b :: rest) with
      | [] => [[]]
      | h :: t => (a :: h) :: t

/-- `parts.pop() || fallback`: the last segment if it is a non-empty string,
otherwise the fallback (JavaScript `""` is falsy). -/
def popOrC (parts : List (List Char)) (fallback : List Char) : List Char :=
  match parts.getLast? with
  | some l => if l.isEmpty then fallback else l
  | none => fallback

/-- Core of `normalizeDatasetKey` on character lists: strip trailing
slashes, take the last `/`-segment, then the last `__`-segment. -/
def normalizeDatasetKeyC (key : List Char) : List Char :=
  let name := stripTrailingChars '/' key
  let name := popOrC (splitOnCharC '/' name) name
  popOrC (splitOnPairC '_' '_' name) name

/-- `normalizeDatasetKey` from `transform.ts`: canonicalize a raw dataset
key by removing trailing slashes, path segments and `__` author prefixes. -/
def normalizeDatasetKey (key : String) : String :=
  String.mk (normalizeDatasetKeyC key.toList)

/-- The extension alternatives of the regexes in `extractCategory`
(`jsonl?|csv|parquet`); none is a suffix of another, so the anchored match
is unambiguous. -/
def extensionAlternatives : List (List Char) :=
  ["jsonl".toList, "json".toList, "csv".toList, "parquet".toList]

/-- Remove `sfx` from the end of `s` if it is a suffix, else `none`. -/
def dropSuffixIfMatch (sfx : List Char) (s : List Char) : Option (List Char) :=
  if sfx.isSuffixOf s then some (s.take (s.length - sfx.length)) else none

/-- First `some` in a list of options. -/
def firstSome : List (Option α) → Option α
  | [] => none
  | some a :: _ => some a
  | none :: rest => firstSome rest

/-- One suffix-anchored `replace(pat, '')` over a list of alternative
suffixes: remove the matching suffix, or return `s` unchanged. -/
def removeSuffixFirst (pats : List (List Char)) (s : List Char) : List Char :=
  match firstSome (pats.map (fun p => dropSuffixIfMatch p s)) with
  | some r => r
  | none => s

/-- Core of `extractCategory` on character lists. -/
def extractCategoryC (filename : List Char) : List Char :=
  let name := popOrC (splitOnCharC '/' filename) filename
  let name := removeSuffixFirst
    (extensionAlternatives.map (fun e => "_test.".toList ++ e)) name
  removeSuffixFirst (extensionAlternatives.map (fun e => '.' :: e)) name

/-- `extractCategory` from `transform.ts`: strip the directory path, then a
trailing `_test.<ext>`, then (on the result) a trailing bare `.<ext>`, for
extensions in `{jsonl, json, csv, parquet}`. -/
def extractCategory (filename : String) : String :=
  String.mk (extractCategoryC filename.toList)

-- sanity checks (development aids)
example : normalizeDatasetKey "datasets/cais__mmlu/" = "mmlu" := by decide
example : normalizeDatasetKey "mmlu" = "mmlu" := by decide
example : extractCategory "abstract_algebra_test.jsonl" = "abstract_algebra" := by decide
example : extractCategory "foo.csv" = "foo" := by decide

/-! ### Lemmas about the split primitives (towards idempotence of the
Key Normalizer, claim C7) -/

theorem getLast?_cons_of_ne (a : α) (l : List α) (h : l ≠ []) :
    (a :: l).getLast? = l.getLast? := by
  cases l with
  | nil => exact absurd rfl h
  | cons b m => exact List.getLast?_cons_cons

theorem splitOnCharC_ne_nil (c : Char) (s : List Char) : splitOnCharC c s ≠ [] := by
  cases s with
  | nil => simp [splitOnCharC]
  | cons a rest =>
    simp only [splitOnCharC]
    split
    · simp
    · split <;> simp

theorem splitOnPairC_ne_nil (c₁ c₂ : Char) (s : List Char) :
    splitOnPairC c₁ c₂ s ≠ [] := by
  match s with
  | [] => simp [splitOnPairC]
  | [a] => simp [splitOnPairC]
  | a :: b :: rest =>
    simp only [splitOnPairC]
    split
    · simp
    · split <;> simp

/-- No segment produced by a single-character split contains the separator. -/
theorem splitOnCharC_not_mem (c : Char) (s : List Char) :
    ∀ e ∈ splitOnCharC c s, c ∉ e := by
  induction s using splitOnCharC.induct c with
  | case1 => intro e he; simp [splitOnCharC] at he; simp [he]
  | case2 a rest hc ih =>
    intro e he
    simp only [splitOnCharC, if_pos hc] at he
    rcases List.mem_cons.mp he with rfl | he
    · simp
    · exact ih e he
  | case3 a rest hc hnil ih =>
    exact absurd hnil (splitOnCharC_ne_nil c rest)
  | case4 a rest hc h t hsplit ih =>
    intro e he
    simp only [splitOnCharC, if_neg hc, hsplit] at he
    rcases List.mem_cons.mp he with rfl | he
    · intro hmem
      rcases List.mem_cons.mp hmem with rfl | hmem
      · exact hc (by simp)
      · exact ih h (hsplit ▸ List.mem_cons_self h t) hmem
    · exact ih e (hsplit ▸ List.mem_cons_of_mem h he)

/-- Splitting a string that does not contain the separator is the identity. -/
theorem splitOnCharC_eq_single (c : Char) (s : List Char) (hs : c ∉ s) :
    splitOnCharC c s = [s] := by
  induction s with
  | nil => rfl
  | cons a rest ih =>
    have ha : ¬(a == c) := by
      simp only [beq_iff_eq]
      rintro rfl
      exact hs (List.mem_cons_self a rest)
    have hrest : c ∉ rest := fun h => hs (List.mem_cons_of_mem a h)
    simp only [splitOnCharC, if_neg ha, ih hrest]

/-- If the last segment of a single-character split is empty, the input was
empty or ended with the separator. -/
theorem splitOnCharC_getLast_empty (c : Char) (s : List Char)
    (h : (splitOnCharC c s).getLast? = some []) :
    s = [] ∨ s.getLast? = some c := by
  induction s using splitOnCharC.induct c with
  | case1 => exact Or.inl rfl
  | case2 a rest hc ih =>
    simp only [splitOnCharC, if_pos hc] at h
    rw [getLast?_cons_of_ne _ _ (splitOnCharC_ne_nil c rest)] at h
    rcases ih h with rfl | hlast
    · right
      simp only [beq_iff_eq] at hc
      simp [hc]
    · right
      have hrest : rest ≠ [] := by rintro rfl; simp at hlast
      rw [getLast?_cons_of_ne _ _ hrest]
      exact hlast
  | case3 a rest hc hnil ih =>
    exact absurd hnil (splitOnCharC_ne_nil c rest)
  | case4 a rest hc h' t hsplit ih =>
    simp only [splitOnCharC, if_neg hc, hsplit] at h
    cases t with
    | nil => simp at h
    | cons t0 ts =>
      rw [getLast?_cons_of_ne _ _ (by simp)] at h
      have h2 : (splitOnCharC c rest).getLast? = some [] := by
        rw [hsplit, getLast?_cons_of_ne _ _ (by simp)]
        exact h
      rcases ih h2 with rfl | hlast
      · rw [show splitOnCharC c [] = [[]] from rfl] at hsplit
        simp at hsplit
      · right
        have hrest : rest ≠ [] := by rintro rfl; simp at hlast
        rw [getLast?_cons_of_ne _ _ hrest]
        exact hlast

/-- The head segment of a two-character split is a prefix of the input. -/
theorem splitOnPairC_head_extend (c₁ c₂ : Char) (s : List Char) (h : List Char)
    (t : List (List Char)) (hs : splitOnPairC c₁ c₂ s = h :: t) : ∃ u, h ++ u = s := by
  induction s using splitOnPairC.induct c₁ c₂ generalizing h t with
  | case1 =>
    simp only [splitOnPairC, List.cons.injEq] at hs
    exact ⟨[], by simp [← hs.1]⟩
  | case2 a =>
    simp only [splitOnPairC, List.cons.injEq] at hs
    exact ⟨[], by simp [← hs.1]⟩
  | case3 a b rest hc ih =>
    simp only [splitOnPairC, if_pos hc, List.cons.injEq] at hs
    exact ⟨a :: b :: rest, by simp [← hs.1]⟩
  | case4 a b rest hc heq ih =>
    exact absurd heq (splitOnPairC_ne_nil _ _ _)
  | case5 a b rest hc h' t' heq ih =>
    simp only [splitOnPairC, if_neg hc, heq, List.cons.injEq] at hs
    obtain ⟨u, hu⟩ := ih h' t' heq
    exact ⟨u, by rw [← hs.1]; simpa using hu⟩

/-- Every character of a segment of a two-character split occurs in the
input. -/
theorem splitOnPairC_mem_subset (c₁ c₂ : Char) (s e : List Char)
    (he : e ∈ splitOnPairC c₁ c₂ s) : ∀ x ∈ e, x ∈ s := by
  induction s using splitOnPairC.induct c₁ c₂ generalizing e with
  | case1 =>
    simp only [splitOnPairC, List.mem_singleton] at he
    simp [he]
  | case2 a =>
    simp only [splitOnPairC, List.mem_singleton] at he
    simp [he]
  | case3 a b rest hc ih =>
    simp only [splitOnPairC, if_pos hc] at he
    rcases List.mem_cons.mp he with rfl | he
    · simp
    · intro x hx
      exact List.mem_cons_of_mem a (List.mem_cons_of_mem b (ih e he x hx))
  | case4 a b rest hc heq ih =>
    exact absurd heq (splitOnPairC_ne_nil _ _ _)
  | case5 a b rest hc h' t' heq ih =>
    simp only [splitOnPairC, if_neg hc, heq] at he
    rcases List.mem_cons.mp he with rfl | he
    · intro x hx
      rcases List.mem_cons.mp hx with rfl | hx
      · exact List.mem_cons_self x _
      · exact List.mem_cons_of_mem a (ih h' (heq ▸ List.mem_cons_self h' t') x hx)
    · intro x hx
      exact List.mem_cons_of_mem a (ih e (heq ▸ List.mem_cons_of_mem h' he) x hx)

/-- Re-splitting any segment of a two-character split yields only that
segment: segments contain no occurrence of the separator. -/
theorem splitOnPairC_resplit (c₁ c₂ : Char) (s e : List Char)
    (he : e ∈ splitOnPairC c₁ c₂ s) : splitOnPairC c₁ c₂ e = [e] := by
  induction s using splitOnPairC.induct c₁ c₂ generalizing e with
  | case1 =>
    simp only [splitOnPairC, List.mem_singleton] at he
    subst he; rfl
  | case2 a =>
    simp only [splitOnPairC, List.mem_singleton] at he
    subst he; rfl
  | case3 a b rest hc ih =>
    simp only [splitOnPairC, if_pos hc] at he
    rcases List.mem_cons.mp he with rfl | he
    · rfl
    · exact ih e he
  | case4 a b rest hc heq ih =>
    exact absurd heq (splitOnPairC_ne_nil _ _ _)
  | case5 a b rest hc h' t' heq ih =>
    simp only [splitOnPairC, if_neg hc, heq] at he
    rcases List.mem_cons.mp he with rfl | he
    · have hh : splitOnPairC c₁ c₂ h' = [h'] := ih h' (heq ▸ List.mem_cons_self h' t')
      obtain ⟨u, hu⟩ := splitOnPairC_head_extend c₁ c₂ (b :: rest) h' t' heq
      cases h' with
      | nil => rfl
      | cons b' h'' =>
        have hb : b' = b := by
          have hhead := congrArg List.head? hu
          simpa using hhead
        subst hb
        simp only [splitOnPairC, if_neg hc, hh]
    · exact ih e (by rw [heq]; exact List.mem_cons_of_mem h' he)

theorem head?_dropWhile_ne (p : Char → Bool) (l : List Char) (x : Char)
    (h : (l.dropWhile p).head? = some x) : p x = false := by
  induction l with
  | nil => simp [List.dropWhile] at h
  | cons a rest ih =>
    by_cases hp : p a
    · rw [List.dropWhile_cons_of_pos hp] at h
      exact ih h
    · rw [List.dropWhile_cons_of_neg hp] at h
      simp only [List.head?_cons, Option.some.injEq] at h
      subst h
      simpa using hp

/-- The result of stripping trailing `c` never ends with `c`. -/
theorem stripTrailingChars_getLast_ne (c : Char) (s : List Char) :
    (stripTrailingChars c s).getLast? ≠ some c := by
  intro h
  unfold stripTrailingChars at h
  rw [List.getLast?_eq_head?_reverse, List.reverse_reverse] at h
  have := head?_dropWhile_ne (fun a => a == c) s.reverse c h
  simp at this

/-- Stripping a character that does not occur is the identity. -/
theorem stripTrailingChars_eq_self (c : Char) (s : List Char) (hs : c ∉ s) :
    stripTrailingChars c s = s := by
  unfold stripTrailingChars
  have hd : s.reverse.dropWhile (fun a => a == c) = s.reverse := by
    rw [List.dropWhile_eq_self_iff]
    intro hl
    simp only [beq_iff_eq]
    intro hget
    have hmem : s.reverse.get ⟨0, hl⟩ ∈ s.reverse := s.reverse.get_mem 0 hl
    rw [hget] at hmem
    exact hs (List.mem_reverse.mp hmem)
  rw [hd, List.reverse_reverse]

/-- If the input does not end with `/`, the last `/`-segment (with falsy
fallback) contains no `/`. -/
theorem popOrC_splitSlash_not_mem (n : List Char) (hend : n.getLast? ≠ some '/') :
    '/' ∉ popOrC (splitOnCharC '/' n) n := by
  unfold popOrC
  cases hl : (splitOnCharC '/' n).getLast? with
  | none =>
    exfalso
    rcases hsp : splitOnCharC '/' n with _ | ⟨x, xs⟩
    · exact splitOnCharC_ne_nil '/' n hsp
    · rw [hsp] at hl
      rcases xs with _ | ⟨y, ys⟩
      · simp at hl
      · rw [getLast?_cons_of_ne _ _ (by simp)] at hl
        have : (y :: ys).getLast? ≠ none := by
          intro hnone
          have := List.getLast?_isSome (l := y :: ys)
          simp [hnone] at this
        exact this hl
  | some l =>
    by_cases hemp : l.isEmpty
    · simp only [hemp, if_true]
      have hnil : l = [] := by simpa [List.isEmpty_iff] using hemp
      subst hnil
      rcases splitOnCharC_getLast_empty '/' n hl with rfl | hend2
      · simp
      · exact absurd hend2 hend
    · simp only [hemp, if_false]
      exact splitOnCharC_not_mem '/' n l (List.mem_of_mem_getLast? hl)

/-- The last `__`-segment (with falsy fallback) of a slash-free string is
slash-free. -/
theorem popOrC_splitPair_not_slash (p : List Char) (hp : '/' ∉ p) :
    '/' ∉ popOrC (splitOnPairC '_' '_' p) p := by
  unfold popOrC
  cases hl : (splitOnPairC '_' '_' p).getLast? with
  | none =>
    exact hp
  | some l =>
    by_cases hemp : l.isEmpty
    · simp only [hemp, if_true]
      exact hp
    · simp only [hemp, if_false]
      intro hmem
      exact hp (splitOnPairC_mem_subset '_' '_' p l (List.mem_of_mem_getLast? hl) '/' hmem)

/-- Taking the last `/`-segment of a slash-free string is the identity. -/
theorem popOrC_splitSlash_self (r : List Char) (hr : '/' ∉ r) :
    popOrC (splitOnCharC '/' r) r = r := by
  rw [splitOnCharC_eq_single '/' r hr]
  unfold popOrC
  simp only [List.getLast?_singleton]
  by_cases hemp : r.isEmpty
  · have : r = [] := by simpa [List.isEmpty_iff] using hemp
    simp [hemp, this]
  · simp [hemp]

/-- Taking the last `__`-segment twice is the same as taking it once. -/
theorem popOrC_splitPair_idem (p : List Char) :
    popOrC (splitOnPairC '_' '_' (popOrC (splitOnPairC '_' '_' p) p))
      (popOrC (splitOnPairC '_' '_' p) p) = popOrC (splitOnPairC '_' '_' p) p := by
  cases hl : (splitOnPairC '_' '_' p).getLast? with
  | none =>
    exfalso
    rcases hsp : splitOnPairC '_' '_' p with _ | ⟨x, xs⟩
    · exact splitOnPairC_ne_nil '_' '_' p hsp
    · rw [hsp] at hl
      have := List.getLast?_isSome (l := x :: xs)
      simp [hl] at this
  | some l =>
    by_cases hemp : l.isEmpty
    · have hX : popOrC (splitOnPairC '_' '_' p) p = p := by
        unfold popOrC
        rw [hl]
        simp [hemp]
      rw [hX]
      exact hX
    · have hX : popOrC (splitOnPairC '_' '_' p) p = l := by
        unfold popOrC
        rw [hl]
        simp [hemp]
      rw [hX, splitOnPairC_resplit '_' '_' p l (List.mem_of_mem_getLast? hl)]
      unfold popOrC
      simp [hemp]

/-- Idempotence of the Key Normalizer on character lists. -/
theorem normalizeDatasetKeyC_idem (k : List Char) :
    normalizeDatasetKeyC (normalizeDatasetKeyC k) = normalizeDatasetKeyC k := by
  simp only [normalizeDatasetKeyC]
  have hend : (stripTrailingChars '/' k).getLast? ≠ some '/' :=
    stripTrailingChars_getLast_ne '/' k
  have hps : '/' ∉ popOrC (splitOnCharC '/' (stripTrailingChars '/' k))
      (stripTrailingChars '/' k) :=
    popOrC_splitSlash_not_mem _ hend
  have hrs : '/' ∉ popOrC
      (splitOnPairC '_' '_' (popOrC (splitOnCharC '/' (stripTrailingChars '/' k))
        (stripTrailingChars '/' k)))
      (popOrC (splitOnCharC '/' (stripTrailingChars '/' k)) (stripTrailingChars '/' k)) :=
    popOrC_splitPair_not_slash _ hps
  rw [stripTrailingChars_eq_self '/' _ hrs, popOrC_splitSlash_self _ hrs,
    popOrC_splitPair_idem]

theorem normalizeDatasetKey_idem_str (k : String) :
    normalizeDatasetKey (normalizeDatasetKey k) = normalizeDatasetKey k := by
  unfold normalizeDatasetKey
  have h : (String.mk (normalizeDatasetKeyC k.toList)).toList
      = normalizeDatasetKeyC k.toList := rfl
  rw [h, normalizeDatasetKeyC_idem]

/-- C7: `normalizeDatasetKey` is idempotent — for every string `k`,
`normalizeDatasetKey (normalizeDatasetKey k) = normalizeDatasetKey k`;
concretely `normalizeDatasetKey "datasets/cais__mmlu/" = "mmlu"` and
`normalizeDatasetKey "mmlu" = "mmlu"`. -/
theorem C7_normalizeDatasetKey_idempotent :
    (∀ k : String,
      normalizeDatasetKey (normalizeDatasetKey k) = normalizeDatasetKey k) ∧
    normalizeDatasetKey "datasets/cais__mmlu/" = "mmlu" ∧
    normalizeDatasetKey "mmlu" = "mmlu" :=
  ⟨normalizeDatasetKey_idem_str, by decide, by decide⟩

/-! ### The Subject Classifier (`categorizeTest`) -/

/-- The closed enumeration of subject-area tags (`CategoryKey` in
`src/types/index.d.ts`). -/
inductive CategoryKey where
  | computerScience
  | mathematics
  | medicineHealth
  | science
  | lawGovernment
  | humanitiesPhilosophy
  | businessEconomics
  | socialSciences
  | education
  | engineeringTechnical
  | vocationalArts
  | languagesLiterature
  | miscellaneous
  | other
deriving DecidableEq

/-- Substring containment on character lists
(JavaScript `String.prototype.includes`). -/
def hasSubC (pat : List Char) : List Char → Bool
  | [] => pat.isEmpty
  | c :: rest => pat.isPrefixOf (c :: rest) || hasSubC pat rest

/-- `name.toLowerCase()` (ASCII-adequate model). -/
def jsToLower (s : String) : String :=
  String.mk (s.toList.map Char.toLower)

/-- `name.includes(kw)`. -/
def nameIncludes (name kw : String) : Bool :=
  hasSubC kw.toList name.toList

/-- First rule group of `categorizeTest` (Computer Science). -/
def matchesComputerScience (name : String) : Bool :=
  nameIncludes name "computer" || nameIncludes name "machine_learning" ||
    nameIncludes name "security"

/-- Rule group 2 (Mathematics). -/
def matchesMathematics (name : String) : Bool :=
  nameIncludes name "math" || nameIncludes name "algebra" ||
    nameIncludes name "calculus" || nameIncludes name "geometry" ||
    nameIncludes name "statistics" || nameIncludes name "trigonometry"

/-- Rule group 3 (Medicine & Health). -/
def matchesMedicineHealth (name : String) : Bool :=
  nameIncludes name "medicine" || nameIncludes name "nutrition" ||
    nameIncludes name "anatomy" || nameIncludes name "clinical" ||
    nameIncludes name "virology" || nameIncludes name "genetics" ||
    nameIncludes name "pharmacology" || nameIncludes name "veterinary" ||
    nameIncludes name "dentistry" || nameIncludes name "pharmacy" ||
    nameIncludes name "optometry" || nameIncludes name "occupational" ||
    nameIncludes name "therapy" || nameIncludes name "psychological" ||
    nameIncludes name "pathology" || nameIncludes name "medical"

/-- Rule group 4 (Science); note `"medical"` also occurs here, after the
Medicine & Health group. -/
def matchesScience (name : String) : Bool :=
  nameIncludes name "physics" || nameIncludes name "chemistry" ||
    nameIncludes name "biology" || nameIncludes name "astronomy" ||
    nameIncludes name "science" || nameIncludes name "medical"

/-- Rule group 5 (Law & Government). -/
def matchesLawGovernment (name : String) : Bool :=
  nameIncludes name "law" || nameIncludes name "legal" ||
    nameIncludes name "jurisprudence" || nameIncludes name "government" ||
    nameIncludes name "politics" || nameIncludes name "foreign" ||
    nameIncludes name "policy" || nameIncludes name "politic" ||
    nameIncludes name "national" || nameIncludes name "protection"

/-- Rule group 6 (Humanities & Philosophy). -/
def matchesHumanitiesPhilosophy (name : String) : Bool :=
  nameIncludes name "ttqav2" || nameIncludes name "history" ||
    nameIncludes name "geography" || nameIncludes name "philosophy" ||
    nameIncludes name "logic" || nameIncludes name "logical" ||
    nameIncludes name "reasoning" || nameIncludes name "religions" ||
    nameIncludes name "principles" || nameIncludes name "moral"

/-- Rule group 7 (Business & Economics). -/
def matchesBusinessEconomics (name : String) : Bool :=
  nameIncludes name "business" || nameIncludes name "economics" ||
    nameIncludes name "marketing" || nameIncludes name "accounting" ||
    nameIncludes name "management" || nameIncludes name "finance" ||
    nameIncludes name "financial" || nameIncludes name "analysis" ||
    nameIncludes name "auditing" || nameIncludes name "taxation" ||
    nameIncludes name "insurance" || nameIncludes name "trade" ||
    nameIncludes name "real" || nameIncludes name "estate" ||
    nameIncludes name "trust" || nameIncludes name "public" ||
    nameIncludes name "relations" || nameIncludes name "money" ||
    nameIncludes name "laundering" || nameIncludes name "econometrics" ||
    nameIncludes name "humanities"

/-- Rule group 8 (Social Sciences). -/
def matchesSocialSciences (name : String) : Bool :=
  nameIncludes name "psychology" || nameIncludes name "sociology" ||
    nameIncludes name "behavior" || nameIncludes name "sexuality" ||
    nameIncludes name "aging" || nameIncludes name "social" ||
    nameIncludes name "studies"

/-- Rule group 9 (Education). -/
def matchesEducation (name : String) : Bool :=
  nameIncludes name "education" || nameIncludes name "profession"

/-- Rule group 10 (Engineering & Technical). -/
def matchesEngineeringTechnical (name : String) : Bool :=
  nameIncludes name "mechanical" || nameIncludes name "technical" ||
    nameIncludes name "electrical" || nameIncludes name "engineering"

/-- Rule group 11 (Vocational & Arts). -/
def matchesVocationalArts (name : String) : Bool :=
  nameIncludes name "music" || nameIncludes name "culinary" ||
    nameIncludes name "physical" || nameIncludes name "nautical" ||
    nameIncludes name "agriculture" || nameIncludes name "fire"

/-- Rule group 12 (Languages & Literature). -/
def matchesLanguagesLiterature (name : String) : Bool :=
  nameIncludes name "chinese" || nameIncludes name "language" ||
    nameIncludes name "literature" || nameIncludes name "taiwanese" ||
    nameIncludes name "hokkien"

/-- Rule group 13 (Miscellaneous). -/
def matchesMiscellaneous (name : String) : Bool :=
  nameIncludes name "miscellaneous" || nameIncludes name "design" ||
    nameIncludes name "global" || nameIncludes name "facts"

/-- `categorizeTest` from `transform.ts`: lowercase the identifier, then an
ordered cascade of keyword rule groups; the first matching group wins,
and `other` is the catch-all. -/
def categorizeTest (filename : String) : CategoryKey :=
  let name := jsToLower filename
  if matchesComputerScience name then .computerScience
  else if matchesMathematics name then .mathematics
  else if matchesMedicineHealth name then .medicineHealth
  else if matchesScience name then .science
  else if matchesLawGovernment name then .lawGovernment
  else if matchesHumanitiesPhilosophy name then .humanitiesPhilosophy
  else if matchesBusinessEconomics name then .businessEconomics
  else if matchesSocialSciences name then .socialSciences
  else if matchesEducation name then .education
  else if matchesEngineeringTechnical name then .engineeringTechnical
  else if matchesVocationalArts name then .vocationalArts
  else if matchesLanguagesLiterature name then .languagesLiterature
  else if matchesMiscellaneous name then .miscellaneous
  else .other

example : categorizeTest "medical_ethics" = .medicineHealth := by decide
example : matchesScience (jsToLower "medical_ethics") = true := by decide
example : categorizeTest "zzz" = .other := by decide

/-- C4: `categorizeTest` is total (returns exactly one `CategoryKey`), the
rule groups are evaluated in fixed order with the first matching group
winning — concretely `categorizeTest "medical_ethics" = medicineHealth`
even though the later Science group also matches `"medical"` — and when no
keyword of any group occurs in the lowercased input, the result is
`other`. -/
theorem C4_categorizeTest_first_match_wins :
    categorizeTest "medical_ethics" = CategoryKey.medicineHealth ∧
    matchesScience (jsToLower "medical_ethics") = true ∧
    ∀ s : String,
      matchesComputerScience (jsToLower s) = false →
      matchesMathematics (jsToLower s) = false →
      matchesMedicineHealth (jsToLower s) = false →
      matchesScience (jsToLower s) = false →
      matchesLawGovernment (jsToLower s) = false →
      matchesHumanitiesPhilosophy (jsToLower s) = false →
      matchesBusinessEconomics (jsToLower s) = false →
      matchesSocialSciences (jsToLower s) = false →
      matchesEducation (jsToLower s) = false →
      matchesEngineeringTechnical (jsToLower s) = false →
      matchesVocationalArts (jsToLower s) = false →
      matchesLanguagesLiterature (jsToLower s) = false →
      matchesMiscellaneous (jsToLower s) = false →
      categorizeTest s = CategoryKey.other := by
  refine ⟨by decide, by decide, ?_⟩
  intro s h1 h2 h3 h4 h5 h6 h7 h8 h9 h10 h11 h12 h13
  simp [categorizeTest, h1, h2, h3, h4, h5, h6, h7, h8, h9, h10, h11, h12, h13]

/-- Witness for C4: the identifier `"zzz"` matches no keyword group and is
classified as `other`. -/
theorem C4_categorizeTest_first_match_wins_witness :
    categorizeTest "zzz" = CategoryKey.other :=
  C4_categorizeTest_first_match_wins.2.2 "zzz" (by decide) (by decide) (by decide)
    (by decide) (by decide) (by decide) (by decide) (by decide) (by decide)
    (by decide) (by decide) (by decide) (by decide)

/-! ### Data model and the Result Flattener (`flattenDatasetResults`) -/

/-- `CategoryResult` from `src/types/index.d.ts`.  The source casts
`accuracy_std` without checking its type, so it is kept as a raw optional
JSON value here. -/
structure CategoryResult where
  category : String
  file : String
  accuracy_mean : ℚ
  accuracy_std : Option Json

/-- `DataSource` from `src/types/index.d.ts` (the `data` field is the
schema-validated copy of `rawData`; the core functions only read
`rawData`). -/
structure DataSource where
  id : String
  label : String
  provider : String
  modelName : String
  modelId : String
  variance : String
  openSource : Bool
  timestamp : String
  isOfficial : Bool
  data : Json
  rawData : Json

/-- The inner loop of `flattenDatasetResults` over one `results` array.
Each entry has `file`, `accuracy_mean` and `accuracy_std` read off it
(throwing on a `null` entry); entries without a string `file` and a numeric
`accuracy_mean` are skipped; the `tw-legal-benchmark-v1`/`default`
override renames the category to `benchmark`. -/
def flattenResultsList (normalizedDataset : String) :
    List Json → Except String (List CategoryResult)
  | [] => .ok []
  | r :: rest => do
    let file? ← r.getPropOrThrow "file"
    let accuracyMean? ← r.getPropOrThrow "accuracy_mean"
    let accuracyStd? ← r.getPropOrThrow "accuracy_std"
    let tail ← flattenResultsList normalizedDataset rest
    match file?, accuracyMean? with
    | some (.str file), some (.num accuracy_mean) =>
      let category := extractCategory file
      let category :=
        if normalizedDataset == "tw-legal-benchmark-v1" && category == "default"
        then "benchmark" else category
      .ok ({ category := normalizedDataset ++ "/" ++ category,
             file := file,
             accuracy_mean := accuracy_mean,
             accuracy_std := accuracyStd? } :: tail)
    | _, _ => .ok tail

/-- One iteration of the outer loop of `flattenDatasetResults`: skip
dataset values that are not (non-null) objects, or whose `results` field is
not an array. -/
def flattenDatasetEntry (datasetKey : String) (datasetValue : Json) :
    Except String (List CategoryResult) :=
  let normalizedDataset := normalizeDatasetKey datasetKey
  match datasetValue with
  | .obj _ | .arr _ =>
    match datasetValue.getProp "results" with
    | some (.arr resultsList) => flattenResultsList normalizedDataset resultsList
    | _ => .ok []
  | _ => .ok []

/-- The outer loop of `flattenDatasetResults` over `Object.entries`. -/
def flattenEntriesList : List (String × Json) → Except String (List CategoryResult)
  | [] => .ok []
  | (k, v) :: rest => do
    let head ← flattenDatasetEntry k v
    let tail ← flattenEntriesList rest
    .ok (head ++ tail)

/-- `flattenDatasetResults` from `transform.ts`.  Non-objects (in the
JavaScript `typeof` sense, which includes arrays) and documents with an
absent or falsy `dataset_results` yield `[]`; a `null` entry inside a
`results` array makes the JavaScript code throw a TypeError, modelled by
`Except.error`. -/
def flattenDatasetResults (rawData : Json) : Except String (List CategoryResult) :=
  match rawData with
  | .obj _ | .arr _ =>
    match rawData.getProp "dataset_results" with
    | none => .ok []
    | some datasetResults =>
      if datasetResults.isFalsy then .ok []
      else flattenEntriesList datasetResults.jsEntries
  | _ => .ok []

-- sanity: a well-formed document flattens to the expected records
example :
    flattenDatasetResults (.obj [("dataset_results", .obj
      [("datasets/cais__mmlu/", .obj [("results", .arr
        [.obj [("file", .str "abstract_algebra_test.jsonl"),
               ("accuracy_mean", .num (4/5))]])])])]) =
    .ok [{ category := "mmlu/abstract_algebra",
           file := "abstract_algebra_test.jsonl",
           accuracy_mean := 4/5,
           accuracy_std := none }] := by
  rfl

theorem except_bind_ok (a : α) (f : α → Except ε β) :
    (Except.ok a : Except ε α) >>= f = f a := rfl

theorem except_bind_error (e : ε) (f : α → Except ε β) :
    (Except.error e : Except ε α) >>= f = Except.error e := rfl

/-- JavaScript `typeof v === 'object' && v !== null` (arrays are objects). -/
def Json.isObjectLike : Json → Bool
  | .obj _ => true
  | .arr _ => true
  | _ => false

/-- C6: for every raw document that is not an object (in the JavaScript
`typeof` sense) or whose `dataset_results` field is absent,
`flattenDatasetResults` returns the empty list without an error. -/
theorem C6_flatten_empty_on_missing (rawData : Json)
    (h : rawData.isObjectLike = false ∨ rawData.getProp "dataset_results" = none) :
    flattenDatasetResults rawData = .ok [] := by
  cases rawData with
  | obj fields =>
    rcases h with h | h
    · simp [Json.isObjectLike] at h
    · simp [flattenDatasetResults, h]
  | arr xs =>
    rcases h with h | h
    · simp [Json.isObjectLike] at h
    · simp [flattenDatasetResults, h]
  | null => rfl
  | bool b => rfl
  | num q => rfl
  | str s => rfl

/-- Witness for C6: a document without `dataset_results` flattens to `[]`. -/
theorem C6_flatten_empty_on_missing_witness :
    flattenDatasetResults (.obj [("other_field", .num 1)]) = .ok [] :=
  C6_flatten_empty_on_missing _ (Or.inr rfl)

/-! ### Claim C1: whether the Flattener can throw

`flattenDatasetResults` reads `result.file` on every entry of a scanned
`results` array without a null check; property access on `null` throws in
JavaScript.  The predicate below characterises the inputs on which no such
access happens. -/

def Json.isNull : Json → Bool
  | .null => true
  | _ => false

/-- No entry of this `results` array is `null`. -/
def resultsListNoNull (rs : List Json) : Bool :=
  rs.all (fun r => !r.isNull)

/-- The `results` array of this dataset value (if the Flattener scans one)
contains no `null` entry. -/
def datasetEntryNoNull (v : Json) : Bool :=
  match v with
  | .obj _ | .arr _ =>
    match v.getProp "results" with
    | some (.arr rs) => resultsListNoNull rs
    | _ => true
  | _ => true

/-- No `results` array scanned by the Flattener contains a `null` entry. -/
def noNullResultEntries (rawData : Json) : Bool :=
  match rawData with
  | .obj _ | .arr _ =>
    match rawData.getProp "dataset_results" with
    | none => true
    | some datasetResults =>
      if datasetResults.isFalsy then true
      else datasetResults.jsEntries.all (fun e => datasetEntryNoNull e.2)
  | _ => true

theorem getPropOrThrow_of_not_null (r : Json) (hr : r.isNull = false) (k : String) :
    r.getPropOrThrow k = .ok (r.getProp k) := by
  cases r <;> simp_all [Json.getPropOrThrow, Json.isNull]

theorem flattenResultsList_isOk (nd : String) (rs : List Json) :
    (flattenResultsList nd rs).isOk = resultsListNoNull rs := by
  induction rs with
  | nil => rfl
  | cons r rest ih =>
    by_cases hr : r.isNull = true
    · have : r = .null := by cases r <;> simp_all [Json.isNull]
      subst this
      rfl
    · rw [show resultsListNoNull (r :: rest)
          = (!r.isNull && resultsListNoNull rest) from rfl]
      simp only [Bool.not_eq_true] at hr
      simp only [hr, Bool.not_false, Bool.true_and]
      rw [show flattenResultsList nd (r :: rest)
          = (r.getPropOrThrow "file" >>= fun file? =>
             r.getPropOrThrow "accuracy_mean" >>= fun accuracyMean? =>
             r.getPropOrThrow "accuracy_std" >>= fun accuracyStd? =>
             flattenResultsList nd rest >>= fun tail =>
             match file?, accuracyMean? with
             | some (.str file), some (.num accuracy_mean) =>
               let category := extractCategory file
               let category :=
                 if nd == "tw-legal-benchmark-v1" && category == "default"
                 then "benchmark" else category
               .ok ({ category := nd ++ "/" ++ category,
                      file := file,
                      accuracy_mean := accuracy_mean,
                      accuracy_std := accuracyStd? } :: tail)
             | _, _ => .ok tail) from rfl]
      rw [getPropOrThrow_of_not_null r hr, except_bind_ok,
        getPropOrThrow_of_not_null r hr, except_bind_ok,
        getPropOrThrow_of_not_null r hr, except_bind_ok]
      cases htail : flattenResultsList nd rest with
      | error e =>
        rw [htail] at ih
        rw [← ih]
        simp [except_bind_error, Except.isOk]
      | ok tail =>
        rw [htail] at ih
        rw [← ih]
        rw [except_bind_ok]
        split <;> rfl

theorem flattenDatasetEntry_isOk (k : String) (v : Json) :
    (flattenDatasetEntry k v).isOk = datasetEntryNoNull v := by
  cases v with
  | obj fields =>
    rw [show flattenDatasetEntry k (.obj fields)
        = (match (Json.obj fields).getProp "results" with
           | some (.arr rs) => flattenResultsList (normalizeDatasetKey k) rs
           | _ => .ok []) from rfl]
    rw [show datasetEntryNoNull (.obj fields)
        = (match (Json.obj fields).getProp "results" with
           | some (.arr rs) => resultsListNoNull rs
           | _ => true) from rfl]
    split
    · exact flattenResultsList_isOk _ _
    · rfl
  | arr xs =>
    rw [show flattenDatasetEntry k (.arr xs)
        = (match (Json.arr xs).getProp "results" with
           | some (.arr rs) => flattenResultsList (normalizeDatasetKey k) rs
           | _ => .ok []) from rfl]
    rfl
  | null => rfl
  | bool b => rfl
  | num q => rfl
  | str s => rfl

theorem flattenEntriesList_isOk (es : List (String × Json)) :
    (flattenEntriesList es).isOk = es.all (fun e => datasetEntryNoNull e.2) := by
  induction es with
  | nil => rfl
  | cons e rest ih =>
    obtain ⟨k, v⟩ := e
    rw [show flattenEntriesList ((k, v) :: rest)
        = (flattenDatasetEntry k v >>= fun head =>
           flattenEntriesList rest >>= fun tail => .ok (head ++ tail)) from rfl]
    rw [show ((k, v) :: rest).all (fun e => datasetEntryNoNull e.2)
        = (datasetEntryNoNull v && rest.all (fun e => datasetEntryNoNull e.2)) from rfl]
    cases hhead : flattenDatasetEntry k v with
    | error e' =>
      have h1 := flattenDatasetEntry_isOk k v
      rw [hhead] at h1
      rw [except_bind_error, ← h1]
      rfl
    | ok head =>
      have h1 := flattenDatasetEntry_isOk k v
      rw [hhead] at h1
      rw [except_bind_ok, ← h1, ← ih]
      cases htail : flattenEntriesList rest with
      | error e' => rfl
      | ok tail => rfl

theorem flattenDatasetResults_isOk (rawData : Json) :
    (flattenDatasetResults rawData).isOk = noNullResultEntries rawData := by
  cases rawData with
  | obj fields =>
    rw [show flattenDatasetResults (.obj fields)
        = (match (Json.obj fields).getProp "dataset_results" with
           | none => .ok []
           | some dr => if dr.isFalsy then .ok []
                        else flattenEntriesList dr.jsEntries) from rfl]
    rw [show noNullResultEntries (.obj fields)
        = (match (Json.obj fields).getProp "dataset_results" with
           | none => true
           | some dr => if dr.isFalsy then true
                        else dr.jsEntries.all (fun e => datasetEntryNoNull e.2)) from rfl]
    split
    · rfl
    · split
      · rfl
      · exact flattenEntriesList_isOk _
  | arr xs => rfl
  | null => rfl
  | bool b => rfl
  | num q => rfl
  | str s => rfl

/-- Counterexample for C1: a `results` array containing `null` makes
`flattenDatasetResults` throw a TypeError (the access `result.file`), so it
does not terminate normally for every input. -/
theorem C1_flatten_throws_on_null_entry :
    (flattenDatasetResults (.obj [("dataset_results", .obj [("d", .obj
      [("results", .arr [.null])])])])).isOk = false := rfl

/-- C1 (amended): `flattenDatasetResults` throws exactly when a scanned
`results` array contains a `null` entry; on every other input it returns
normally, and entries without a string `file` and numeric `accuracy_mean`
are silently skipped while well-formed entries still contribute (partial
output rather than an error). -/
theorem C1_flatten_throw_characterization :
    (∀ rawData : Json,
      (flattenDatasetResults rawData).isOk = noNullResultEntries rawData) ∧
    flattenDatasetResults (.obj [("dataset_results", .obj [("d", .obj
      [("results", .arr [.num 5, .str "x", .bool true, .arr [], .obj [],
        .obj [("file", .str "t1.csv"), ("accuracy_mean", .num (1/2))]])])])])
      = .ok [{ category := "d/t1", file := "t1.csv", accuracy_mean := 1/2,
               accuracy_std := none }] :=
  ⟨flattenDatasetResults_isOk, rfl⟩

/-- C8: `extractCategory` strips the path and a trailing `_test` plus
extension, or else a bare extension; and in the Flattener a dataset key
normalizing to `tw-legal-benchmark-v1` with extracted category exactly
`default` yields the composite category `tw-legal-benchmark-v1/benchmark`. -/
theorem C8_extractCategory_and_legacy_override :
    extractCategory "abstract_algebra_test.jsonl" = "abstract_algebra" ∧
    extractCategory "foo.csv" = "foo" ∧
    flattenDatasetResults (.obj [("dataset_results", .obj
      [("datasets/ikala__tw-legal-benchmark-v1/", .obj [("results", .arr
        [.obj [("file", .str "default.jsonl"),
               ("accuracy_mean", .num (3/4))]])])])])
      = .ok [{ category := "tw-legal-benchmark-v1/benchmark",
               file := "default.jsonl", accuracy_mean := 3/4,
               accuracy_std := none }] :=
  ⟨by decide, by decide, rfl⟩

/-! ### Claim C5: shape of every emitted `CategoryResult` -/

theorem flattenResultsList_cons (nd : String) (r : Json) (rest : List Json) :
    flattenResultsList nd (r :: rest)
      = (r.getPropOrThrow "file" >>= fun file? =>
         r.getPropOrThrow "accuracy_mean" >>= fun accuracyMean? =>
         r.getPropOrThrow "accuracy_std" >>= fun accuracyStd? =>
         flattenResultsList nd rest >>= fun tail =>
         match file?, accuracyMean? with
         | some (.str file), some (.num accuracy_mean) =>
           let category := extractCategory file
           let category :=
             if nd == "tw-legal-benchmark-v1" && category == "default"
             then "benchmark" else category
           .ok ({ category := nd ++ "/" ++ category,
                  file := file,
                  accuracy_mean := accuracy_mean,
                  accuracy_std := accuracyStd? } :: tail)
         | _, _ => .ok tail) := rfl

theorem flattenEntriesList_cons (k : String) (v : Json) (rest : List (String × Json)) :
    flattenEntriesList ((k, v) :: rest)
      = (flattenDatasetEntry k v >>= fun head =>
         flattenEntriesList rest >>= fun tail => .ok (head ++ tail)) := rfl

/-- The verbatim-copy relation of C5: the record `cr` was produced under
normalized dataset name `nd` from the source entry `r`. -/
def FlattenedFrom (nd : String) (r : Json) (cr : CategoryResult) : Prop :=
  r.getProp "file" = some (.str cr.file) ∧
  r.getProp "accuracy_mean" = some (.num cr.accuracy_mean) ∧
  r.getProp "accuracy_std" = cr.accuracy_std ∧
  cr.category = nd ++ "/" ++
    (if nd == "tw-legal-benchmark-v1" && extractCategory cr.file == "default"
     then "benchmark" else extractCategory cr.file)

theorem flattenResultsList_mem_spec (nd : String) (rs : List Json)
    (l : List CategoryResult) (h : flattenResultsList nd rs = .ok l) :
    ∀ cr ∈ l, ∃ r ∈ rs, FlattenedFrom nd r cr := by
  induction rs generalizing l with
  | nil =>
    rw [show flattenResultsList nd [] = .ok [] from rfl] at h
    cases h
    intro cr hcr
    simp at hcr
  | cons r rest ih =>
    by_cases hr : r.isNull = true
    · have hrn : r = .null := by cases r <;> simp_all [Json.isNull]
      subst hrn
      rw [flattenResultsList_cons] at h
      rw [show (Json.null.getPropOrThrow "file") = .error "TypeError" from rfl,
        except_bind_error] at h
      cases h
    · simp only [Bool.not_eq_true] at hr
      rw [flattenResultsList_cons, getPropOrThrow_of_not_null r hr, except_bind_ok,
        getPropOrThrow_of_not_null r hr, except_bind_ok,
        getPropOrThrow_of_not_null r hr, except_bind_ok] at h
      cases htail : flattenResultsList nd rest with
      | error e =>
        rw [htail, except_bind_error] at h
        cases h
      | ok tail =>
        rw [htail, except_bind_ok] at h
        split at h
        next file accuracy_mean heq1 heq2 =>
          cases h
          intro cr hcr
          rcases List.mem_cons.mp hcr with rfl | hcr
          · exact ⟨r, List.mem_cons_self r rest, heq1, heq2, rfl, rfl⟩
          · obtain ⟨r', hr', hp⟩ := ih tail htail cr hcr
            exact ⟨r', List.mem_cons_of_mem r hr', hp⟩
        next =>
          cases h
          intro cr hcr
          obtain ⟨r', hr', hp⟩ := ih _ htail cr hcr
          exact ⟨r', List.mem_cons_of_mem r hr', hp⟩

theorem flattenDatasetEntry_mem_spec (k : String) (v : Json)
    (head : List CategoryResult) (h : flattenDatasetEntry k v = .ok head) :
    ∀ cr ∈ head, ∃ rs, v.getProp "results" = some (.arr rs) ∧
      ∃ r ∈ rs, FlattenedFrom (normalizeDatasetKey k) r cr := by
  cases v with
  | obj fields =>
    rw [show flattenDatasetEntry k (.obj fields)
        = (match (Json.obj fields).getProp "results" with
           | some (.arr rs) => flattenResultsList (normalizeDatasetKey k) rs
           | _ => .ok []) from rfl] at h
    split at h
    next rs heq =>
      intro cr hcr
      exact ⟨rs, heq, flattenResultsList_mem_spec _ rs head h cr hcr⟩
    next =>
      cases h
      intro cr hcr
      simp at hcr
  | arr xs =>
    rw [show flattenDatasetEntry k (.arr xs) = .ok [] from rfl] at h
    cases h
    intro cr hcr
    simp at hcr
  | null =>
    cases h
    intro cr hcr
    simp at hcr
  | bool b =>
    cases h
    intro cr hcr
    simp at hcr
  | num q =>
    cases h
    intro cr hcr
    simp at hcr
  | str s =>
    cases h
    intro cr hcr
    simp at hcr

theorem flattenEntriesList_mem_spec (es : List (String × Json))
    (l : List CategoryResult) (h : flattenEntriesList es = .ok l) :
    ∀ cr ∈ l, ∃ k v, (k, v) ∈ es ∧
      (∃ rs, v.getProp "results" = some (.arr rs) ∧
        ∃ r ∈ rs, FlattenedFrom (normalizeDatasetKey k) r cr) := by
  induction es generalizing l with
  | nil =>
    rw [show flattenEntriesList [] = .ok [] from rfl] at h
    cases h
    intro cr hcr
    simp at hcr
  | cons e rest ih =>
    obtain ⟨k, v⟩ := e
    rw [flattenEntriesList_cons] at h
    cases hhead : flattenDatasetEntry k v with
    | error e' =>
      rw [hhead, except_bind_error] at h
      cases h
    | ok head =>
      rw [hhead, except_bind_ok] at h
      cases htail : flattenEntriesList rest with
      | error e' =>
        rw [htail, except_bind_error] at h
        cases h
      | ok tail =>
        rw [htail, except_bind_ok] at h
        cases h
        intro cr hcr
        rcases List.mem_append.mp hcr with hcr | hcr
        · obtain ⟨rs, hrs, hex⟩ := flattenDatasetEntry_mem_spec k v head hhead cr hcr
          exact ⟨k, v, List.mem_cons_self _ _, rs, hrs, hex⟩
        · obtain ⟨k', v', hkv, hex⟩ := ih tail htail cr hcr
          exact ⟨k', v', List.mem_cons_of_mem _ hkv, hex⟩

/-- C5: every `CategoryResult` emitted by `flattenDatasetResults` has
`category = "<normalizedDataset>/<extractedCategory>"` (after the legacy
override) and carries `accuracy_mean` (and `accuracy_std`) verbatim from a
source entry; and values outside `[0,1]` pass through without clamping. -/
theorem C5_flatten_category_and_verbatim :
    (∀ rawData l, flattenDatasetResults rawData = .ok l →
      ∀ cr ∈ l, ∃ datasetResults datasetKey datasetValue,
        rawData.getProp "dataset_results" = some datasetResults ∧
        (datasetKey, datasetValue) ∈ datasetResults.jsEntries ∧
        ∃ rs, datasetValue.getProp "results" = some (.arr rs) ∧
        ∃ r ∈ rs, FlattenedFrom (normalizeDatasetKey datasetKey) r cr) ∧
    flattenDatasetResults (.obj [("dataset_results", .obj [("d", .obj
      [("results", .arr [.obj [("file", .str "t1.csv"),
        ("accuracy_mean", .num (3/2))]])])])])
      = .ok [{ category := "d/t1", file := "t1.csv", accuracy_mean := 3/2,
               accuracy_std := none }] := by
  refine ⟨?_, rfl⟩
  intro rawData l h cr hcr
  match rawData with
  | .obj fields =>
    rw [show flattenDatasetResults (.obj fields)
        = (match (Json.obj fields).getProp "dataset_results" with
           | none => .ok []
           | some dr => if dr.isFalsy then .ok []
                        else flattenEntriesList dr.jsEntries) from rfl] at h
    split at h
    next => cases h; simp at hcr
    next dr heq =>
      split at h
      · cases h; simp at hcr
      · obtain ⟨k, v, hkv, hex⟩ := flattenEntriesList_mem_spec _ l h cr hcr
        exact ⟨dr, k, v, heq, hkv, hex⟩
  | .arr xs =>
    rw [show flattenDatasetResults (.arr xs) = .ok [] from rfl] at h
    cases h; simp at hcr
  | .null => cases h; simp at hcr
  | .bool b => cases h; simp at hcr
  | .num q => cases h; simp at hcr
  | .str s => cases h; simp at hcr

/-- Witness for C5: instantiating the characterization on a concrete
document and its emitted record. -/
theorem C5_flatten_category_and_verbatim_witness :
    ∃ datasetResults datasetKey datasetValue,
      (Json.obj [("dataset_results", .obj [("d", .obj
        [("results", .arr [.obj [("file", .str "t1.csv"),
          ("accuracy_mean", .num (3/2))]])])])]).getProp "dataset_results"
        = some datasetResults ∧
      (datasetKey, datasetValue) ∈ datasetResults.jsEntries ∧
      ∃ rs, datasetValue.getProp "results" = some (.arr rs) ∧
      ∃ r ∈ rs, FlattenedFrom (normalizeDatasetKey datasetKey) r
        { category := "d/t1", file := "t1.csv", accuracy_mean := 3/2,
          accuracy_std := none } :=
  C5_flatten_category_and_verbatim.1
    (.obj [("dataset_results", .obj [("d", .obj
      [("results", .arr [.obj [("file", .str "t1.csv"),
        ("accuracy_mean", .num (3/2))]])])])])
    [{ category := "d/t1", file := "t1.csv", accuracy_mean := 3/2,
       accuracy_std := none }] rfl
    { category := "d/t1", file := "t1.csv", accuracy_mean := 3/2,
      accuracy_std := none } (List.mem_singleton.mpr rfl)

/-! ### The Category Grouper (`groupByCategory`) -/

/-- The in-place bucket update of `grouped[category].push(result)`. -/
def bucketUpdate (c : CategoryKey) (r : CategoryResult)
    (e : CategoryKey × List CategoryResult) : CategoryKey × List CategoryResult :=
  if e.1 = c then (e.1, e.2 ++ [r]) else e

/-- One step of `groupByCategory`: create the bucket on first use
(appending a new key in insertion order), then push the result. -/
def bucketPush (grouped : List (CategoryKey × List CategoryResult))
    (c : CategoryKey) (r : CategoryResult) :
    List (CategoryKey × List CategoryResult) :=
  if grouped.any (fun e => decide (e.1 = c)) then grouped.map (bucketUpdate c r)
  else grouped ++ [(c, [r])]

/-- `groupByCategory` from `transform.ts`: bucket flattened results by the
Subject Classifier applied to their category path; a JavaScript plain
object is an insertion-ordered association list. -/
def groupByCategory (results : List CategoryResult) :
    List (CategoryKey × List CategoryResult) :=
  results.foldl (fun grouped r => bucketPush grouped (categorizeTest r.category) r) []

/-- Lookup of a bucket in the grouped structure. -/
def bucketOf : List (CategoryKey × List CategoryResult) → CategoryKey →
    List CategoryResult
  | [], _ => []
  | e :: rest, k => if e.1 = k then e.2 else bucketOf rest k

theorem bucketUpdate_fst (c : CategoryKey) (r : CategoryResult)
    (e : CategoryKey × List CategoryResult) : (bucketUpdate c r e).1 = e.1 := by
  simp only [bucketUpdate]
  split <;> rfl

theorem bucketUpdate_of_ne (c : CategoryKey) (r : CategoryResult)
    (e : CategoryKey × List CategoryResult) (h : ¬e.1 = c) :
    bucketUpdate c r e = e := by
  simp only [bucketUpdate, if_neg h]

theorem bucketUpdate_of_eq (c : CategoryKey) (r : CategoryResult)
    (e : CategoryKey × List CategoryResult) (h : e.1 = c) :
    bucketUpdate c r e = (e.1, e.2 ++ [r]) := by
  simp only [bucketUpdate, if_pos h]

theorem bucketOf_map_update_ne (g : List (CategoryKey × List CategoryResult))
    (c k : CategoryKey) (r : CategoryResult) (hkc : ¬k = c) :
    bucketOf (g.map (bucketUpdate c r)) k = bucketOf g k := by
  induction g with
  | nil => rfl
  | cons e rest ih =>
    by_cases hek : e.1 = k
    · have hec : ¬e.1 = c := fun h => hkc (hek ▸ h)
      rw [List.map_cons, bucketUpdate_of_ne c r e hec]
      simp [bucketOf, hek]
    · rw [List.map_cons]
      simp [bucketOf, bucketUpdate_fst, hek, ih]

theorem bucketOf_map_update_found (g : List (CategoryKey × List CategoryResult))
    (c k : CategoryKey) (r : CategoryResult)
    (hany : g.any (fun e => decide (e.1 = c)) = true) :
    bucketOf (g.map (bucketUpdate c r)) k
      = if k = c then bucketOf g k ++ [r] else bucketOf g k := by
  by_cases hkc : k = c
  · subst hkc
    rw [if_pos rfl]
    revert hany
    induction g with
    | nil =>
      intro hany
      simp at hany
    | cons e rest ih =>
      intro hany
      by_cases hek : e.1 = k
      · rw [List.map_cons, bucketUpdate_of_eq k r e hek]
        simp [bucketOf, hek]
      · have hrest : rest.any (fun e => decide (e.1 = k)) = true := by
          simp only [List.any_cons, Bool.or_eq_true, decide_eq_true_eq] at hany
          tauto
        rw [List.map_cons, bucketUpdate_of_ne k r e hek]
        simp [bucketOf, hek, ih hrest]
  · rw [if_neg hkc]
    exact bucketOf_map_update_ne g c k r hkc

theorem bucketOf_append_new (g : List (CategoryKey × List CategoryResult))
    (c k : CategoryKey) (r : CategoryResult)
    (hnone : g.any (fun e => decide (e.1 = c)) = false) :
    bucketOf (g ++ [(c, [r])]) k
      = if k = c then bucketOf g k ++ [r] else bucketOf g k := by
  induction g with
  | nil =>
    by_cases hkc : k = c
    · subst hkc
      simp [bucketOf]
    · have hck : ¬c = k := fun h => hkc h.symm
      simp [bucketOf, hck, hkc]
  | cons e rest ih =>
    simp only [List.any_cons, Bool.or_eq_false_iff, decide_eq_false_iff_not] at hnone
    obtain ⟨hec, hrest⟩ := hnone
    by_cases hek : e.1 = k
    · have : ¬k = c := fun h => hec (hek.trans h)
      simp [bucketOf, hek, this]
    · have := ih (by simpa using hrest)
      simp [bucketOf, hek, this]

theorem bucketOf_bucketPush (g : List (CategoryKey × List CategoryResult))
    (c k : CategoryKey) (r : CategoryResult) :
    bucketOf (bucketPush g c r) k
      = if k = c then bucketOf g k ++ [r] else bucketOf g k := by
  unfold bucketPush
  cases hany : g.any (fun e => decide (e.1 = c)) with
  | true => simpa using bucketOf_map_update_found g c k r hany
  | false => simpa using bucketOf_append_new g c k r hany

theorem bucketOf_groupFold (results : List CategoryResult)
    (g₀ : List (CategoryKey × List CategoryResult)) (k : CategoryKey) :
    bucketOf (results.foldl
        (fun grouped r => bucketPush grouped (categorizeTest r.category) r) g₀) k
      = bucketOf g₀ k
        ++ results.filter (fun r => decide (categorizeTest r.category = k)) := by
  induction results generalizing g₀ with
  | nil => simp
  | cons r rest ih =>
    rw [List.foldl_cons, ih]
    rw [bucketOf_bucketPush]
    by_cases hk : k = categorizeTest r.category
    · rw [if_pos hk]
      rw [List.filter_cons_of_pos (by simp [hk])]
      simp
    · rw [if_neg hk]
      rw [List.filter_cons_of_neg (by simp; exact fun h => hk h.symm)]

theorem map_update_of_not_mem (g : List (CategoryKey × List CategoryResult))
    (c : CategoryKey) (r : CategoryResult) (hc : ∀ e ∈ g, ¬e.1 = c) :
    g.map (bucketUpdate c r) = g := by
  induction g with
  | nil => rfl
  | cons e rest ih =>
    rw [List.map_cons, bucketUpdate_of_ne c r e (hc e (List.mem_cons_self e rest)),
      ih (fun x hx => hc x (List.mem_cons_of_mem e hx))]

theorem keys_map_update (g : List (CategoryKey × List CategoryResult))
    (c : CategoryKey) (r : CategoryResult) :
    (g.map (bucketUpdate c r)).map Prod.fst = g.map Prod.fst := by
  induction g with
  | nil => rfl
  | cons e rest ih => simp [bucketUpdate_fst, ih]

theorem bucketPush_eq_map (g : List (CategoryKey × List CategoryResult))
    (c : CategoryKey) (r : CategoryResult)
    (hany : g.any (fun e => decide (e.1 = c)) = true) :
    bucketPush g c r = g.map (bucketUpdate c r) := by
  unfold bucketPush
  rw [hany]
  simp

theorem bucketPush_eq_append (g : List (CategoryKey × List CategoryResult))
    (c : CategoryKey) (r : CategoryResult)
    (hany : g.any (fun e => decide (e.1 = c)) = false) :
    bucketPush g c r = g ++ [(c, [r])] := by
  unfold bucketPush
  rw [hany]
  simp

theorem keys_bucketPush_nodup (g : List (CategoryKey × List CategoryResult))
    (c : CategoryKey) (r : CategoryResult) (h : (g.map Prod.fst).Nodup) :
    ((bucketPush g c r).map Prod.fst).Nodup := by
  cases hany : g.any (fun e => decide (e.1 = c)) with
  | true =>
    rw [bucketPush_eq_map g c r hany, keys_map_update]
    exact h
  | false =>
    have hc : c ∉ g.map Prod.fst := by
      intro hmem
      obtain ⟨e, he, heq⟩ := List.mem_map.mp hmem
      have hx : g.any (fun e => decide (e.1 = c)) = true :=
        List.any_eq_true.mpr ⟨e, he, by simp [heq]⟩
      simp [hx] at hany
    rw [bucketPush_eq_append g c r hany]
    simp only [List.map_append, List.map_cons, List.map_nil]
    rw [List.nodup_append]
    exact ⟨h, List.nodup_singleton c, by simpa using hc⟩

theorem flatten_map_update (g : List (CategoryKey × List CategoryResult))
    (c : CategoryKey) (r : CategoryResult) :
    g.any (fun e => decide (e.1 = c)) = true → (g.map Prod.fst).Nodup →
    ((g.map (bucketUpdate c r)).map Prod.snd).flatten.Perm
      ((g.map Prod.snd).flatten ++ [r]) := by
  induction g with
  | nil =>
    intro hany _
    simp at hany
  | cons e rest ih =>
    intro hany hnodup
    simp only [List.map_cons, List.nodup_cons] at hnodup
    obtain ⟨hnotmem, hnd⟩ := hnodup
    by_cases hec : e.1 = c
    · rw [List.map_cons, bucketUpdate_of_eq c r e hec]
      have hrest : rest.map (bucketUpdate c r) = rest := by
        apply map_update_of_not_mem
        intro x hx hxc
        exact hnotmem (by rw [hec, ← hxc]; exact List.mem_map_of_mem Prod.fst hx)
      rw [hrest]
      simp only [List.map_cons, List.flatten_cons]
      rw [List.append_assoc, List.append_assoc]
      exact List.Perm.append_left e.2 List.perm_append_comm
    · rw [List.map_cons, bucketUpdate_of_ne c r e hec]
      have hrest : rest.any (fun x => decide (x.1 = c)) = true := by
        simp only [List.any_cons, Bool.or_eq_true, decide_eq_true_eq] at hany
        tauto
      simp only [List.map_cons, List.flatten_cons]
      rw [List.append_assoc]
      exact List.Perm.append_left e.2 (ih hrest hnd)

theorem flatten_bucketPush (g : List (CategoryKey × List CategoryResult))
    (c : CategoryKey) (r : CategoryResult) (h : (g.map Prod.fst).Nodup) :
    ((bucketPush g c r).map Prod.snd).flatten.Perm
      ((g.map Prod.snd).flatten ++ [r]) := by
  cases hany : g.any (fun e => decide (e.1 = c)) with
  | true =>
    rw [bucketPush_eq_map g c r hany]
    exact flatten_map_update g c r hany h
  | false =>
    rw [bucketPush_eq_append g c r hany]
    have hflat : ((g ++ [(c, [r])]).map Prod.snd).flatten
        = (g.map Prod.snd).flatten ++ [r] := by simp
    rw [hflat]

theorem flatten_groupFold (results : List CategoryResult)
    (g₀ : List (CategoryKey × List CategoryResult))
    (h : (g₀.map Prod.fst).Nodup) :
    ((results.foldl
        (fun grouped r => bucketPush grouped (categorizeTest r.category) r)
        g₀).map Prod.snd).flatten.Perm
      ((g₀.map Prod.snd).flatten ++ results) := by
  induction results generalizing g₀ with
  | nil => simp
  | cons r rest ih =>
    rw [List.foldl_cons]
    have h1 := ih (bucketPush g₀ (categorizeTest r.category) r)
      (keys_bucketPush_nodup g₀ (categorizeTest r.category) r h)
    have h2 := flatten_bucketPush g₀ (categorizeTest r.category) r h
    have h3 : (((g₀.map Prod.snd).flatten ++ [r]) ++ rest)
        = (g₀.map Prod.snd).flatten ++ (r :: rest) := by simp
    exact h1.trans (h3 ▸ h2.append_right rest)

theorem keys_groupFold_nodup (results : List CategoryResult)
    (g₀ : List (CategoryKey × List CategoryResult))
    (h : (g₀.map Prod.fst).Nodup) :
    (((results.foldl
        (fun grouped r => bucketPush grouped (categorizeTest r.category) r)
        g₀)).map Prod.fst).Nodup := by
  induction results generalizing g₀ with
  | nil => exact h
  | cons r rest ih =>
    rw [List.foldl_cons]
    exact ih _ (keys_bucketPush_nodup g₀ (categorizeTest r.category) r h)

/-- C9: `groupByCategory` partitions its input — the bucket for key `k`
is exactly the in-order sublist of results classified as `k` (no dedup, no
sort), the bucket keys are pairwise distinct (each result lands in exactly
one bucket), and the concatenation of all buckets is a permutation of the
input (nothing dropped or duplicated). -/
theorem C9_groupByCategory_partition (results : List CategoryResult) :
    (∀ k, bucketOf (groupByCategory results) k
      = results.filter (fun r => decide (categorizeTest r.category = k))) ∧
    ((groupByCategory results).map Prod.fst).Nodup ∧
    ((groupByCategory results).map Prod.snd).flatten.Perm results := by
  refine ⟨fun k => ?_, ?_, ?_⟩
  · simpa [bucketOf] using bucketOf_groupFold results [] k
  · exact keys_groupFold_nodup results [] (by simp)
  · simpa using flatten_groupFold results [] (by simp)

/-! ### The Pivot Builder (`buildPivotTable`) -/

/-- `PivotRow`: the `category` plus one numeric cell per source label
(dynamic keys modelled as an insertion-ordered association list). -/
structure PivotRow where
  category : String
  cells : List (String × ℚ)

/-- JavaScript property/`Map` assignment `m[k] = v`: overwrite in place if
the key exists (keeping its position), else append. -/
def mapSet (m : List (String × α)) (k : String) (v : α) : List (String × α) :=
  if m.any (fun e => e.1 == k) then
    m.map (fun e => if e.1 == k then (e.1, v) else e)
  else m ++ [(k, v)]

/-- The source label computed inline in `buildPivotTable`:
`` `${modelName}${varianceLabel} @ ${timestamp}${isOfficial ? ' (Official)' : ''}` ``. -/
def pivotSourceLabel (source : DataSource) : String :=
  source.modelName
    ++ (if source.variance != "default" then " (" ++ source.variance ++ ")" else "")
    ++ " @ " ++ source.timestamp
    ++ (if source.isOfficial then " (Official)" else "")

/-- `categoryMap` upsert of `buildPivotTable`: get or create the row for
the category, then set the cell at the source label. -/
def pivotInsert (rows : List (String × PivotRow)) (sourceLabel : String)
    (r : CategoryResult) : List (String × PivotRow) :=
  if rows.any (fun e => e.1 == r.category) then
    rows.map (fun e =>
      if e.1 == r.category then
        (e.1, { e.2 with cells := mapSet e.2.cells sourceLabel r.accuracy_mean })
      else e)
  else
    rows ++ [(r.category,
      { category := r.category, cells := [(sourceLabel, r.accuracy_mean)] })]

/-- `buildPivotTable` from `transform.ts`: flatten each source, compute its
label, and upsert one cell per flattened result; rows come out in
first-seen category order (`Map` insertion order). -/
def buildPivotTable (sources : List DataSource) : Except String (List PivotRow) := do
  let rows ← sources.foldlM (fun rows source => do
      let results ← flattenDatasetResults source.rawData
      let sourceLabel := pivotSourceLabel source
      .ok (results.foldl (fun rows r => pivotInsert rows sourceLabel r) rows)) []
  .ok (rows.map Prod.snd)

/-- C3: the pivot source label is
`"<modelName>[ (<variance>)] @ <timestamp>[ (Official)]"` (variance suffix
only when the variance is not `"default"`, Official suffix only for
official sources), and when two sources produce the identical label for
the same category path the resulting row holds a single cell containing
exactly the second source's `accuracy_mean` (overwrite, not sum or
average). -/
theorem C3_buildPivotTable_label_and_overwrite :
    (∀ source : DataSource,
      pivotSourceLabel source
        = source.modelName
          ++ (if source.variance = "default" then ""
              else " (" ++ source.variance ++ ")")
          ++ " @ " ++ source.timestamp
          ++ (if source.isOfficial then " (Official)" else "")) ∧
    (∀ v₁ v₂ : ℚ,
      buildPivotTable
        [{ id := "a", label := "A", provider := "P1", modelName := "model-x",
           modelId := "org/model-x", variance := "default", openSource := true,
           timestamp := "2024-01-01", isOfficial := false, data := .null,
           rawData := .obj [("dataset_results", .obj [("mmlu", .obj
             [("results", .arr [.obj [("file", .str "t1.csv"),
               ("accuracy_mean", .num v₁)]])])])] },
         { id := "b", label := "B", provider := "P2", modelName := "model-x",
           modelId := "org/model-x", variance := "default", openSource := false,
           timestamp := "2024-01-01", isOfficial := false, data := .null,
           rawData := .obj [("dataset_results", .obj [("mmlu", .obj
             [("results", .arr [.obj [("file", .str "t1.csv"),
               ("accuracy_mean", .num v₂)]])])])] }]
        = .ok [{ category := "mmlu/t1",
                 cells := [("model-x @ 2024-01-01", v₂)] }]) := by
  constructor
  · intro source
    unfold pivotSourceLabel
    by_cases h : source.variance = "default" <;> simp [h]
  · intro v₁ v₂
    rfl

/-! ### The Ranking Aggregator (`benchmarkData` in `BenchmarkRankingTable`) -/

/-- `extractBenchmarkName`: `category.split('/')[0] || category`. -/
def extractBenchmarkName (category : String) : String :=
  match splitOnCharC '/' category.toList with
  | [] => category
  | p :: _ => if p.isEmpty then category else String.mk p

/-- `extractTestName`: everything after the first `/` (joined back with
`/`, leading slashes removed), or the whole category if there is no `/`. -/
def extractTestName (category : String) : String :=
  let parts := splitOnCharC '/' category.toList
  if parts.length > 1 then
    String.mk ((List.intercalate ['/'] (parts.drop 1)).dropWhile (fun c => c == '/'))
  else category

/-- JavaScript `Set.prototype.add` on an insertion-ordered string set. -/
def setAdd (l : List String) (x : String) : List String :=
  if l.any (fun e => e == x) then l else l ++ [x]

/-- The per-model accumulator of the benchmark map
(`{ source, scores: Map<string, number> }`). -/
structure ModelEntry where
  source : DataSource
  scores : List (String × ℚ)

/-- One benchmark's accumulator (`{ testNames: Set, modelData: Map }`). -/
structure BenchEntry where
  testNames : List String
  modelData : List (String × ModelEntry)

/-- Phase one of `benchmarkData`: fold one flattened result into the
benchmark map (create the benchmark entry and model entry on demand, add
the test name to the set, set the score). -/
def benchInsert (bm : List (String × BenchEntry)) (source : DataSource)
    (r : CategoryResult) : List (String × BenchEntry) :=
  let benchmarkName := extractBenchmarkName r.category
  let testName := extractTestName r.category
  let bm' := if bm.any (fun e => e.1 == benchmarkName) then bm
             else bm ++ [(benchmarkName, ⟨[], []⟩)]
  bm'.map (fun e =>
    if e.1 == benchmarkName then
      let testNames := setAdd e.2.testNames testName
      let modelData :=
        if e.2.modelData.any (fun m => m.1 == source.id) then e.2.modelData
        else e.2.modelData ++ [(source.id, ⟨source, []⟩)]
      let modelData := modelData.map (fun m =>
        if m.1 == source.id then
          (m.1, ⟨m.2.source, mapSet m.2.scores testName r.accuracy_mean⟩)
        else m)
      (e.1, ⟨testNames, modelData⟩)
    else e)

/-- `ModelRankingRow` from `BenchmarkRankingTable` (the dynamic per-test
fields are collected in `cells`). -/
structure ModelRankingRow where
  key : String
  provider : String
  modelName : String
  modelId : String
  displayName : String
  openSource : Bool
  isOfficial : Bool
  timestamp : String
  average : ℚ
  cells : List (String × ℚ)

/-- `Map.prototype.get` on an association list. -/
def assocGet? (m : List (String × α)) (k : String) : Option α :=
  (m.find? (fun e => e.1 == k)).map (·.2)

/-- The row-building loop over `allTests`: collect the per-test cells and
accumulate `totalScore` and `count` for the tests present in `scores`. -/
def rowFold (scores : List (String × ℚ)) (allTests : List String) :
    List (String × ℚ) × ℚ × ℕ :=
  allTests.foldl (fun acc t =>
    match assocGet? scores t with
    | some score => (acc.1 ++ [(t, score)], acc.2.1 + score, acc.2.2 + 1)
    | none => acc) ([], 0, 0)

/-- Build one `ModelRankingRow`; `average = count > 0 ? totalScore / count : 0`. -/
def mkRankingRow (benchmarkName : String) (allTests : List String)
    (me : ModelEntry) : ModelRankingRow :=
  let source := me.source
  let displayName := source.modelName
    ++ (if source.variance != "default" then " (" ++ source.variance ++ ")" else "")
  let folded := rowFold me.scores allTests
  { key := benchmarkName ++ "-" ++ source.id,
    provider := source.provider,
    modelName := source.modelName,
    modelId := source.modelId,
    displayName := displayName,
    openSource := source.openSource,
    isOfficial := source.isOfficial,
    timestamp := source.timestamp,
    average := if folded.2.2 > 0 then folded.2.1 / (folded.2.2 : ℚ) else 0,
    cells := folded.1 }

/-- Lexicographic code-unit comparison of JavaScript's default
`Array.prototype.sort` comparator (on the BMP, code points coincide with
UTF-16 code units). -/
def charListLe : List Char → List Char → Bool
  | [], _ => true
  | _ :: _, [] => false
  | a :: as, b :: bs =>
    if a.toNat < b.toNat then true
    else if b.toNat < a.toNat then false
    else charListLe as bs

/-- The string comparison used by the sorts below. -/
def strLe (a b : String) : Bool := charListLe a.toList b.toList

/-- Insertion step of the string sort (`Array.from(set).sort()`). -/
def insertSorted (x : String) : List String → List String
  | [] => [x]
  | y :: ys => if strLe x y then x :: y :: ys else y :: insertSorted x ys

/-- `Array.prototype.sort()` on distinct strings. -/
def sortStrings (l : List String) : List String := l.foldr insertSorted []

/-- One benchmark's output block (`BenchmarkData`). -/
structure BenchmarkData where
  benchmarkName : String
  models : List ModelRankingRow
  allTests : List String

/-- Insertion step of the final benchmark sort
(`benchmarks.sort((a, b) => a.benchmarkName.localeCompare(b.benchmarkName))`,
modelled with code-point order). -/
def insertBench (x : BenchmarkData) : List BenchmarkData → List BenchmarkData
  | [] => [x]
  | y :: ys =>
    if strLe x.benchmarkName y.benchmarkName then x :: y :: ys
    else y :: insertBench x ys

/-- Sort the benchmark blocks by name. -/
def sortBenchmarks (l : List BenchmarkData) : List BenchmarkData :=
  l.foldr insertBench []

/-- The `benchmarkData` computation of `BenchmarkRankingTable`: flatten
every source into the two-level benchmark map, then emit one block per
benchmark with sorted test columns and one ranking row per model. -/
def benchmarkData (sources : List DataSource) :
    Except String (List BenchmarkData) := do
  let bm ← sources.foldlM (fun bm source => do
      let results ← flattenDatasetResults source.rawData
      .ok (results.foldl (fun bm r => benchInsert bm source r) bm)) []
  let benchmarks := bm.map (fun e =>
    let allTests := sortStrings e.2.testNames
    { benchmarkName := e.1,
      models := e.2.modelData.map (fun m => mkRankingRow e.1 allTests m.2),
      allTests := allTests })
  .ok (sortBenchmarks benchmarks)

/-- The phase-one invariant: every model entry of every benchmark has a
non-empty score map whose keys were all added to that benchmark's test-name
set. -/
def BenchInv (bm : List (String × BenchEntry)) : Prop :=
  ∀ be ∈ bm, ∀ me ∈ be.2.modelData,
    me.2.scores ≠ [] ∧ ∀ sc ∈ me.2.scores, sc.1 ∈ be.2.testNames

theorem setAdd_mem_of_mem (l : List String) (x y : String) (h : x ∈ l) :
    x ∈ setAdd l y := by
  unfold setAdd
  split
  · exact h
  · exact List.mem_append_left _ h

theorem setAdd_mem_self (l : List String) (y : String) : y ∈ setAdd l y := by
  unfold setAdd
  split
  next h =>
    obtain ⟨e, he, heq⟩ := List.any_eq_true.mp h
    exact (beq_iff_eq.mp heq) ▸ he
  next => exact List.mem_append_right _ (List.mem_singleton.mpr rfl)

theorem mapSet_ne_nil (m : List (String × α)) (k : String) (v : α) :
    mapSet m k v ≠ [] := by
  unfold mapSet
  split
  · intro h
    rcases m with _ | ⟨e, rest⟩
    · simp at *
    · simp at h
  · simp

theorem mapSet_mem (m : List (String × α)) (k : String) (v : α)
    (sc : String × α) (h : sc ∈ mapSet m k v) : sc.1 = k ∨ sc ∈ m := by
  unfold mapSet at h
  split at h
  · obtain ⟨e, he, heq⟩ := List.mem_map.mp h
    by_cases hek : e.1 == k
    · rw [if_pos hek] at heq
      left
      rw [← heq]
      exact beq_iff_eq.mp hek
    · rw [if_neg hek] at heq
      right
      exact heq ▸ he
  · rcases List.mem_append.mp h with h | h
    · right; exact h
    · left
      rw [List.mem_singleton.mp h]

theorem benchInsert_inv (bm : List (String × BenchEntry)) (source : DataSource)
    (r : CategoryResult) (h : BenchInv bm) : BenchInv (benchInsert bm source r) := by
  intro be hbe me hme
  unfold benchInsert at hbe
  set benchmarkName := extractBenchmarkName r.category with hbn
  set testName := extractTestName r.category with htn
  set bm' := (if bm.any (fun e => e.1 == benchmarkName) then bm
              else bm ++ [(benchmarkName, ⟨[], []⟩)]) with hbm'
  have hinv' : BenchInv bm' := by
    rw [hbm']
    split
    · exact h
    · intro be' hbe' me' hme'
      rcases List.mem_append.mp hbe' with hbe' | hbe'
      · exact h be' hbe' me' hme'
      · rw [List.mem_singleton.mp hbe'] at hme'
        simp at hme'
  obtain ⟨e, he, heq⟩ := List.mem_map.mp hbe
  by_cases hebn : e.1 == benchmarkName
  · rw [if_pos hebn] at heq
    subst heq
    simp only at hme
    obtain ⟨m, hm, hmeq⟩ := List.mem_map.mp hme
    have hm' : m ∈ e.2.modelData ∨ m = (source.id, ⟨source, []⟩) := by
      revert hm
      split
      · exact fun hm => Or.inl hm
      · intro hm
        rcases List.mem_append.mp hm with hm | hm
        · exact Or.inl hm
        · exact Or.inr (List.mem_singleton.mp hm)
    by_cases hmid : m.1 == source.id
    · rw [if_pos hmid] at hmeq
      subst hmeq
      refine ⟨mapSet_ne_nil _ _ _, ?_⟩
      intro sc hsc
      rcases mapSet_mem _ _ _ sc hsc with hsc | hsc
      · exact hsc ▸ setAdd_mem_self _ _
      · rcases hm' with hm' | hm'
        · exact setAdd_mem_of_mem _ _ _ ((hinv' e he m hm').2 sc hsc)
        · rw [hm'] at hsc
          simp at hsc
    · rw [if_neg hmid] at hmeq
      subst hmeq
      rcases hm' with hm' | hm'
      · obtain ⟨hne, hsub⟩ := hinv' e he m hm'
        exact ⟨hne, fun sc hsc => setAdd_mem_of_mem _ _ _ (hsub sc hsc)⟩
      · exfalso
        rw [hm'] at hmid
        simp at hmid
  · rw [if_neg hebn] at heq
    subst heq
    exact hinv' e he me hme

theorem benchInv_foldResults (results : List CategoryResult)
    (source : DataSource) (bm : List (String × BenchEntry)) (h : BenchInv bm) :
    BenchInv (results.foldl (fun bm r => benchInsert bm source r) bm) := by
  induction results generalizing bm with
  | nil => exact h
  | cons r rest ih =>
    rw [List.foldl_cons]
    exact ih _ (benchInsert_inv bm source r h)

theorem benchInv_foldSources (sources : List DataSource)
    (bm₀ : List (String × BenchEntry)) (h₀ : BenchInv bm₀)
    (bm : List (String × BenchEntry))
    (hfold : sources.foldlM (fun bm source => do
        let results ← flattenDatasetResults source.rawData
        Except.ok (results.foldl (fun bm r => benchInsert bm source r) bm))
      bm₀ = .ok bm) :
    BenchInv bm := by
  induction sources generalizing bm₀ with
  | nil =>
    rw [List.foldlM_nil] at hfold
    cases hfold
    exact h₀
  | cons source rest ih =>
    rw [List.foldlM_cons] at hfold
    cases hres : flattenDatasetResults source.rawData with
    | error e =>
      rw [hres, except_bind_error] at hfold
      cases hfold
    | ok results =>
      rw [hres, except_bind_ok, except_bind_ok] at hfold
      exact ih _ (benchInv_foldResults results source bm₀ h₀) hfold

theorem rowFold_acc (scores : List (String × ℚ)) (allTests : List String) :
    ∀ acc : List (String × ℚ) × ℚ × ℕ,
      acc.2.1 = (acc.1.map Prod.snd).sum → acc.2.2 = acc.1.length →
      (allTests.foldl (fun acc t =>
        match assocGet? scores t with
        | some score => (acc.1 ++ [(t, score)], acc.2.1 + score, acc.2.2 + 1)
        | none => acc) acc).2.1
        = ((allTests.foldl (fun acc t =>
            match assocGet? scores t with
            | some score => (acc.1 ++ [(t, score)], acc.2.1 + score, acc.2.2 + 1)
            | none => acc) acc).1.map Prod.snd).sum ∧
      (allTests.foldl (fun acc t =>
        match assocGet? scores t with
        | some score => (acc.1 ++ [(t, score)], acc.2.1 + score, acc.2.2 + 1)
        | none => acc) acc).2.2
        = (allTests.foldl (fun acc t =>
            match assocGet? scores t with
            | some score => (acc.1 ++ [(t, score)], acc.2.1 + score, acc.2.2 + 1)
            | none => acc) acc).1.length := by
  induction allTests with
  | nil => exact fun acc h1 h2 => ⟨h1, h2⟩
  | cons t rest ih =>
    intro acc h1 h2
    simp only [List.foldl_cons]
    cases hget : assocGet? scores t with
    | none => exact ih acc h1 h2
    | some score =>
      refine ih _ ?_ ?_
      · simp [h1]
      · simp [h2]

theorem rowFold_sum_length (scores : List (String × ℚ)) (allTests : List String) :
    (rowFold scores allTests).2.1
      = ((rowFold scores allTests).1.map Prod.snd).sum ∧
    (rowFold scores allTests).2.2 = (rowFold scores allTests).1.length :=
  rowFold_acc scores allTests ([], 0, 0) rfl rfl

theorem rowFold_cells_mono (scores : List (String × ℚ)) (allTests : List String) :
    ∀ acc : List (String × ℚ) × ℚ × ℕ, acc.1 ≠ [] →
      (allTests.foldl (fun acc t =>
        match assocGet? scores t with
        | some score => (acc.1 ++ [(t, score)], acc.2.1 + score, acc.2.2 + 1)
        | none => acc) acc).1 ≠ [] := by
  induction allTests with
  | nil => exact fun acc h => h
  | cons t rest ih =>
    intro acc h
    simp only [List.foldl_cons]
    cases hget : assocGet? scores t with
    | none => exact ih acc h
    | some score => exact ih _ (by simp)

theorem rowFold_cells_ne_nil (scores : List (String × ℚ)) (allTests : List String)
    (h : ∃ t ∈ allTests, (assocGet? scores t).isSome) :
    (rowFold scores allTests).1 ≠ [] := by
  unfold rowFold
  induction allTests with
  | nil =>
    exfalso
    obtain ⟨t', ht', _⟩ := h
    simp at ht'
  | cons t' rest ih =>
    simp only [List.foldl_cons]
    cases hget : assocGet? scores t' with
    | some score => exact rowFold_cells_mono scores rest _ (by simp)
    | none =>
      apply ih
      obtain ⟨t'', ht'', hsome''⟩ := h
      rcases List.mem_cons.mp ht'' with rfl | ht''
      · rw [hget] at hsome''
        simp at hsome''
      · exact ⟨t'', ht'', hsome''⟩

theorem insertSorted_mem (x a : String) (l : List String) :
    a ∈ insertSorted x l ↔ a = x ∨ a ∈ l := by
  induction l with
  | nil => simp [insertSorted]
  | cons y ys ih =>
    unfold insertSorted
    split
    · simp
    · simp only [List.mem_cons, ih]
      tauto

theorem sortStrings_mem (a : String) (l : List String) :
    a ∈ sortStrings l ↔ a ∈ l := by
  induction l with
  | nil => simp [sortStrings]
  | cons y ys ih =>
    rw [show sortStrings (y :: ys) = insertSorted y (sortStrings ys) from rfl]
    rw [insertSorted_mem]
    simp [ih]

theorem assocGet?_isSome_of_mem (m : List (String × ℚ)) (t : String) (v : ℚ)
    (h : (t, v) ∈ m) : (assocGet? m t).isSome = true := by
  unfold assocGet?
  have hf : (List.find? (fun e => e.1 == t) m).isSome = true :=
    List.find?_isSome.mpr ⟨(t, v), h, by simp⟩
  cases hfe : List.find? (fun e => e.1 == t) m with
  | none => rw [hfe] at hf; simp at hf
  | some e => rfl

theorem insertBench_mem (x a : BenchmarkData) (l : List BenchmarkData) :
    a ∈ insertBench x l ↔ a = x ∨ a ∈ l := by
  induction l with
  | nil => simp [insertBench]
  | cons y ys ih =>
    unfold insertBench
    split
    · simp
    · simp only [List.mem_cons, ih]
      tauto

theorem sortBenchmarks_mem (a : BenchmarkData) (l : List BenchmarkData) :
    a ∈ sortBenchmarks l ↔ a ∈ l := by
  induction l with
  | nil => simp [sortBenchmarks]
  | cons y ys ih =>
    rw [show sortBenchmarks (y :: ys) = insertBench y (sortBenchmarks ys) from rfl]
    rw [insertBench_mem]
    simp [ih]

/-- Source A of the C2 scenario: scores {t1: 4/5, t2: 3/5} in `mmlu`. -/
def rankSourceA : DataSource :=
  { id := "a", label := "A", provider := "P1", modelName := "model-a",
    modelId := "org/model-a", variance := "default", openSource := true,
    timestamp := "T1", isOfficial := true, data := .null,
    rawData := .obj [("dataset_results", .obj [("mmlu", .obj
      [("results", .arr
        [.obj [("file", .str "t1.csv"), ("accuracy_mean", .num (4/5))],
         .obj [("file", .str "t2.csv"), ("accuracy_mean", .num (3/5))]])])])] }

/-- Source B of the C2 scenario: only {t1: 2/5} in `mmlu`. -/
def rankSourceB : DataSource :=
  { id := "b", label := "B", provider := "P2", modelName := "model-b",
    modelId := "org/model-b", variance := "default", openSource := false,
    timestamp := "T2", isOfficial := false, data := .null,
    rawData := .obj [("dataset_results", .obj [("mmlu", .obj
      [("results", .arr
        [.obj [("file", .str "t1.csv"),
               ("accuracy_mean", .num (2/5))]])])])] }

/-- Source C of the C2 scenario: contributes only to the `zz` benchmark. -/
def rankSourceC : DataSource :=
  { id := "c", label := "C", provider := "P3", modelName := "model-c",
    modelId := "org/model-c", variance := "default", openSource := true,
    timestamp := "T3", isOfficial := false, data := .null,
    rawData := .obj [("dataset_results", .obj [("zz", .obj
      [("results", .arr
        [.obj [("file", .str "t9.csv"),
               ("accuracy_mean", .num (1/2))]])])])] }

/-- C2: in the Ranking Aggregator every (benchmark, source) row has a
non-empty set of present test cells and `average` equal to the arithmetic
mean over exactly those cells (missing tests are excluded from the
denominator); concretely, with source A scoring {t1: 4/5, t2: 3/5},
source B scoring only {t1: 2/5} and source C contributing only to a
different benchmark, A's average is 7/10, B's is 2/5, and C produces no
row in the `mmlu` benchmark at all. -/
theorem C2_ranking_average_over_present_tests :
    (∀ (sources : List DataSource) (bds : List BenchmarkData),
      benchmarkData sources = .ok bds →
      ∀ bd ∈ bds, ∀ row ∈ bd.models,
        row.cells ≠ [] ∧
        row.average = (row.cells.map Prod.snd).sum / (row.cells.length : ℚ)) ∧
    benchmarkData [rankSourceA, rankSourceB, rankSourceC]
      = .ok
      [{ benchmarkName := "mmlu",
         models :=
           [{ key := "mmlu-a", provider := "P1", modelName := "model-a",
              modelId := "org/model-a", displayName := "model-a",
              openSource := true, isOfficial := true, timestamp := "T1",
              average := 7/10, cells := [("t1", 4/5), ("t2", 3/5)] },
            { key := "mmlu-b", provider := "P2", modelName := "model-b",
              modelId := "org/model-b", displayName := "model-b",
              openSource := false, isOfficial := false, timestamp := "T2",
              average := 2/5, cells := [("t1", 2/5)] }],
         allTests := ["t1", "t2"] },
       { benchmarkName := "zz",
         models :=
           [{ key := "zz-c", provider := "P3", modelName := "model-c",
              modelId := "org/model-c", displayName := "model-c",
              openSource := true, isOfficial := false, timestamp := "T3",
              average := 1/2, cells := [("t9", 1/2)] }],
         allTests := ["t9"] }] := by
  constructor
  · intro sources bds hok bd hbd row hrow
    unfold benchmarkData at hok
    cases hbm : sources.foldlM (fun bm source => do
        let results ← flattenDatasetResults source.rawData
        Except.ok (results.foldl (fun bm r => benchInsert bm source r) bm)) [] with
    | error e =>
      rw [hbm, except_bind_error] at hok
      cases hok
    | ok bm =>
      rw [hbm, except_bind_ok] at hok
      cases hok
      have hinv : BenchInv bm :=
        benchInv_foldSources sources [] (by intro be hbe; simp at hbe) bm hbm
      rw [sortBenchmarks_mem] at hbd
      obtain ⟨e, he, hbdeq⟩ := List.mem_map.mp hbd
      subst hbdeq
      obtain ⟨m, hm, hroweq⟩ := List.mem_map.mp hrow
      subst hroweq
      obtain ⟨hne, hsub⟩ := hinv e he m hm
      obtain ⟨⟨t, v⟩, htv⟩ := List.exists_mem_of_ne_nil _ hne
      have hts : t ∈ sortStrings e.2.testNames :=
        (sortStrings_mem t _).mpr (hsub (t, v) htv)
      have hsome : (assocGet? m.2.scores t).isSome = true :=
        assocGet?_isSome_of_mem _ t v htv
      have hcells : (rowFold m.2.scores (sortStrings e.2.testNames)).1 ≠ [] :=
        rowFold_cells_ne_nil _ _ ⟨t, hts, hsome⟩
      obtain ⟨hsum, hlen⟩ := rowFold_sum_length m.2.scores (sortStrings e.2.testNames)
      refine ⟨hcells, ?_⟩
      show (if (rowFold m.2.scores (sortStrings e.2.testNames)).2.2 > 0 then
          (rowFold m.2.scores (sortStrings e.2.testNames)).2.1
            / ((rowFold m.2.scores (sortStrings e.2.testNames)).2.2 : ℚ)
        else 0)
        = (((rowFold m.2.scores (sortStrings e.2.testNames)).1.map Prod.snd).sum
          / ((rowFold m.2.scores (sortStrings e.2.testNames)).1.length : ℚ))
      have hpos : 0 < (rowFold m.2.scores (sortStrings e.2.testNames)).2.2 := by
        rw [hlen]
        exact List.length_pos.mpr hcells
      rw [if_pos hpos, hsum, hlen]
  · have h : benchmarkData [rankSourceA, rankSourceB, rankSourceC]
        = .ok
        [{ benchmarkName := "mmlu",
           models :=
             [{ key := "mmlu-a", provider := "P1", modelName := "model-a",
                modelId := "org/model-a", displayName := "model-a",
                openSource := true, isOfficial := true, timestamp := "T1",
                average := ((0:ℚ) + 4/5 + 3/5) / (((2:ℕ)) : ℚ),
                cells := [("t1", 4/5), ("t2", 3/5)] },
              { key := "mmlu-b", provider := "P2", modelName := "model-b",
                modelId := "org/model-b", displayName := "model-b",
                openSource := false, isOfficial := false, timestamp := "T2",
                average := ((0:ℚ) + 2/5) / (((1:ℕ)) : ℚ),
                cells := [("t1", 2/5)] }],
           allTests := ["t1", "t2"] },
         { benchmarkName := "zz",
           models :=
             [{ key := "zz-c", provider := "P3", modelName := "model-c",
                modelId := "org/model-c", displayName := "model-c",
                openSource := true, isOfficial := false, timestamp := "T3",
                average := ((0:ℚ) + 1/2) / (((1:ℕ)) : ℚ),
                cells := [("t9", 1/2)] }],
           allTests := ["t9"] }] := rfl
    rw [h]
    norm_num

/-- Witness for C2: the characterization applied to the concrete scenario
and source A's row in the `mmlu` benchmark. -/
theorem C2_ranking_average_over_present_tests_witness :
    ({ key := "mmlu-a", provider := "P1", modelName := "model-a",
       modelId := "org/model-a", displayName := "model-a",
       openSource := true, isOfficial := true, timestamp := "T1",
       average := 7/10,
       cells := [("t1", 4/5), ("t2", 3/5)] } : ModelRankingRow).cells ≠ [] ∧
    ({ key := "mmlu-a", provider := "P1", modelName := "model-a",
       modelId := "org/model-a", displayName := "model-a",
       openSource := true, isOfficial := true, timestamp := "T1",
       average := 7/10,
       cells := [("t1", 4/5), ("t2", 3/5)] } : ModelRankingRow).average
      = (([("t1", (4:ℚ)/5), ("t2", (3:ℚ)/5)].map Prod.snd).sum / ((2:ℕ) : ℚ)) :=
  C2_ranking_average_over_present_tests.1 _ _
    C2_ranking_average_over_present_tests.2
    _ (List.mem_cons_self _ _) _ (List.mem_cons_self _ _)

/-! ### The Category Dashboard's per-test statistics map (`categoryStats`,
phase one).  The later per-model statistics pass of `CategoryDashboard`
(averages, overall min/max, variance across models) consumes the structure
built here and is not needed for the claims under study. -/

/-- `getSourceIdentifier` from `transform.ts` (model + variance). -/
def getSourceIdentifier (source : DataSource) : String :=
  if source.variance != "default" then
    source.modelName ++ "-" ++ source.variance
  else source.modelName

/-- One test row of `CategoryStats.tests`; `values` maps a source
identifier to `{avg, min, max}`. -/
structure TestEntry where
  testName : String
  fullPath : String
  dataset : String
  values : List (String × (ℚ × ℚ × ℚ))

/-- The per-category accumulator (`CategoryStats`), restricted to the
fields written by the first pass (`name`, `tests`); the summary fields are
initialised to constants and only filled by the later statistics pass. -/
structure CatData where
  name : CategoryKey
  tests : List TestEntry

/-- `results.find(r => r.file === file)`: the callback reads `r.file`, so
a `null` element reached before a match throws. -/
def findByFile (file : String) : List Json → Except String (Option Json)
  | [] => .ok none
  | r :: rest =>
    match r with
    | .null => .error "TypeError"
    | _ =>
      match r.getProp "file" with
      | some (.str f) => if f == file then .ok (some r) else findByFile file rest
      | _ => findByFile file rest

/-- `Math.min(...qs)` over a non-empty list (head `q`, tail `qs`). -/
def listMin (q : ℚ) (qs : List ℚ) : ℚ := qs.foldl min q

/-- `Math.max(...qs)` over a non-empty list. -/
def listMax (q : ℚ) (qs : List ℚ) : ℚ := qs.foldl max q

/-- All elements as numbers, or `none` if one is not a number.  (For a
non-numeric element JavaScript's `Math.min` would yield `NaN`; NaN is
floating-point behaviour outside this embedding, and such a dataset is
treated as not providing run statistics.) -/
def allNums : List Json → Option (List ℚ)
  | [] => some []
  | .num q :: rest => (allNums rest).map (q :: ·)
  | _ => none

/-- The scan over `dataset_results` looking for `individual_runs.accuracies`
of the entry with exactly the given file; on success (non-empty numeric
array) it yields its min/max and stops, otherwise the scan continues, and
the fallback is `accuracy_mean` for both. -/
def scanIndividualRuns (file : String) (fallback : ℚ) :
    List (String × Json) → Except String (ℚ × ℚ)
  | [] => .ok (fallback, fallback)
  | (_, dv) :: rest => do
    match dv.getProp "results" with
    | some (.arr rs) => do
      let found ← findByFile file rs
      match found with
      | some testResult =>
        match testResult.getProp "individual_runs" with
        | some ir =>
          if ir.isFalsy then scanIndividualRuns file fallback rest
          else
            match ir.getProp "accuracies" with
            | some (.arr accs) =>
              if accs.length > 0 then
                match allNums accs with
                | some (q :: qs) => .ok (listMin q qs, listMax q qs)
                | _ => scanIndividualRuns file fallback rest
              else scanIndividualRuns file fallback rest
            | _ => scanIndividualRuns file fallback rest
        | none => scanIndividualRuns file fallback rest
      | none => scanIndividualRuns file fallback rest
    | _ => scanIndividualRuns file fallback rest

/-- `result.category.split('/').pop() || result.category`. -/
def dashTestName (category : String) : String :=
  String.mk (popOrC (splitOnCharC '/' category.toList) category.toList)

/-- `result.category.split('/')[0] || 'unknown'`. -/
def dashDatasetName (category : String) : String :=
  match splitOnCharC '/' category.toList with
  | [] => "unknown"
  | p :: _ => if p.isEmpty then "unknown" else String.mk p

/-- Process one flattened result inside its category: find or create the
test entry by `testName`, derive min/max from individual runs (fallback:
the mean), then `values.set(sourceId, {avg, min, max})` — an overwrite at
an existing source identifier. -/
def dashProcessResult (sourceId : String) (datasetEntries : List (String × Json))
    (tests : List TestEntry) (r : CategoryResult) :
    Except String (List TestEntry) := do
  let testName := dashTestName r.category
  let datasetName := dashDatasetName r.category
  let stats ← scanIndividualRuns r.file r.accuracy_mean datasetEntries
  if tests.any (fun t => t.testName == testName) then
    .ok (tests.map (fun t =>
      if t.testName == testName then
        { t with values := mapSet t.values sourceId (r.accuracy_mean, stats.1, stats.2) }
      else t))
  else
    .ok (tests ++ [{ testName := testName, fullPath := r.category,
                     dataset := datasetName,
                     values := [(sourceId, (r.accuracy_mean, stats.1, stats.2))] }])

/-- Process one `(categoryName, categoryResults)` group for one source. -/
def dashProcessCategory (sourceId : String) (datasetEntries : List (String × Json))
    (catData : CatData) (categoryResults : List CategoryResult) :
    Except String CatData := do
  let tests ← categoryResults.foldlM
    (fun tests r => dashProcessResult sourceId datasetEntries tests r) catData.tests
  .ok { catData with tests := tests }

/-- Process one source: flatten, group, and fold every grouped category
into the insertion-ordered category map. -/
def dashProcessSource (cats : List (CategoryKey × CatData)) (source : DataSource) :
    Except String (List (CategoryKey × CatData)) := do
  let sourceId := getSourceIdentifier source
  let results ← flattenDatasetResults source.rawData
  let grouped := groupByCategory results
  let datasetEntries := (match source.rawData.getProp "dataset_results" with
    | some dr => if dr.isFalsy then Json.obj [] else dr
    | none => Json.obj []).jsEntries
  grouped.foldlM (fun cats entry => do
    let cats' := if cats.any (fun c => decide (c.1 = entry.1)) then cats
                 else cats ++ [(entry.1, { name := entry.1, tests := [] })]
    cats'.mapM (fun c =>
      if c.1 = entry.1 then do
        let newCat ← dashProcessCategory sourceId datasetEntries c.2 entry.2
        Except.ok (c.1, newCat)
      else Except.ok c)) cats

/-- Phase one of the `categoryStats` computation in `CategoryDashboard`:
the category list with the per-test `values` maps, in insertion order. -/
def categoryStats (sources : List DataSource) : Except String (List CatData) := do
  let cats ← sources.foldlM dashProcessSource []
  .ok (cats.map Prod.snd)

/-- First source of the C10 scenario. -/
def dashSource1 (v : ℚ) : DataSource :=
  { id := "id-1", label := "L1", provider := "P1", modelName := "model-x",
    modelId := "org/model-x", variance := "default", openSource := true,
    timestamp := "T1", isOfficial := true, data := .null,
    rawData := .obj [("dataset_results", .obj [("mmlu", .obj
      [("results", .arr [.obj [("file", .str "t1.csv"),
        ("accuracy_mean", .num v)]])])])] }

/-- Second source of the C10 scenario: different `id`, `provider` and
`timestamp`, same `modelName` and `variance`. -/
def dashSource2 (v : ℚ) : DataSource :=
  { id := "id-2", label := "L2", provider := "P2", modelName := "model-x",
    modelId := "org2/model-x", variance := "default", openSource := false,
    timestamp := "T2", isOfficial := false, data := .null,
    rawData := .obj [("dataset_results", .obj [("mmlu", .obj
      [("results", .arr [.obj [("file", .str "t1.csv"),
        ("accuracy_mean", .num v)]])])])] }

/-- C10: `getSourceIdentifier` returns `modelName` when the variance is
`"default"` and `"<modelName>-<variance>"` otherwise, so it depends only
on those two fields; two distinct sources sharing them collide, and in the
category dashboard's per-test value map the later source's
`{avg, min, max}` silently overwrites the earlier entry at that shared
key. -/
theorem C10_sourceIdentifier_collision_overwrites :
    (∀ source : DataSource,
      getSourceIdentifier source
        = if source.variance = "default" then source.modelName
          else source.modelName ++ "-" ++ source.variance) ∧
    (∀ s₁ s₂ : DataSource, s₁.modelName = s₂.modelName →
      s₁.variance = s₂.variance →
      getSourceIdentifier s₁ = getSourceIdentifier s₂) ∧
    (∀ v₁ v₂ : ℚ,
      categoryStats [dashSource1 v₁, dashSource2 v₂]
        = .ok [{ name := .other,
                 tests := [{ testName := "t1", fullPath := "mmlu/t1",
                             dataset := "mmlu",
                             values := [("model-x", (v₂, v₂, v₂))] }] }]) := by
  refine ⟨?_, ?_, ?_⟩
  · intro source
    unfold getSourceIdentifier
    by_cases h : source.variance = "default" <;> simp [h]
  · intro s₁ s₂ hm hv
    unfold getSourceIdentifier
    rw [hm, hv]
  · intro v₁ v₂
    rfl

/-- Witness for C10: the two concrete colliding sources receive the same
identifier. -/
theorem C10_sourceIdentifier_collision_overwrites_witness :
    getSourceIdentifier (dashSource1 0) = getSourceIdentifier (dashSource2 0) :=
  C10_sourceIdentifier_collision_overwrites.2.1 (dashSource1 0) (dashSource2 0)
    rfl rfl
